import Mathlib

/-!
Shallow embedding of the core allocation logic of the llm-inferno optimizer
(pkg/core/allocation.go) and of its greedy solver package, together with
proofs about them.  Go float32 quantities are modelled as rationals and Go
int as Lean Int.  The external queue-analysis library (binary-search root
finder and the state-dependent M/M/1 queue solver) is modelled as an oracle
of deterministic functions of its inputs.
-/

namespace Optimizer

/-- Update of a string-keyed map modelled as a total function. -/
def upd {β : Type} (f : String → β) (k : String) (v : β) : String → β :=
  fun x => if x = k then v else f x

/-- Modelled from the spec: configuration constant MaxQueueToBatchRatio of the
config package (not among the provided sources); spec section 6 gives the
example value 4. -/
def maxQueueToBatchRatio : Int := 4

/-- Modelled from the spec: configuration constant Delta (stability margin) of
the config package (not among the provided sources). -/
def delta : ℚ := 1 / 1000

/-- Modelled from the spec: configuration constant SLOMargin of the config
package (not among the provided sources). -/
def sloMargin : ℚ := 6 / 5

/-- Modelled from the spec: configuration constant StabilitySafetyFraction of
the config package (not among the provided sources). -/
def stabilitySafetyFraction : ℚ := 1 / 10

/-- Modelled from the spec: configuration constant AccelPenaltyFactor of the
config package (not among the provided sources). -/
def accelPenaltyFactor : ℚ := 1 / 10

/-- Exact value of math.MaxFloat32, used by the solver as a large sentinel. -/
def maxFloat32 : ℚ := 2 ^ 128 - 2 ^ 104

/-- Modelled from the spec: the core Accelerator entity (name, type,
multiplicity, cost per unit time); its file is not among the provided sources.
The accessors Name, Type, Spec().Multiplicity and Cost read these fields. -/
structure Accelerator where
  name : String
  accType : String
  multiplicity : Int
  cost : ℚ
deriving DecidableEq, Repr

/-- Per (model, accelerator) performance data (config.ModelAcceleratorPerfData):
units per replica, measured maximum batch size, the token count it was measured
at, and the decode latency coefficients alpha and beta. -/
structure PerfData where
  accCount : Int
  maxBatchSize : Int
  atTokens : Int
  alpha : ℚ
  beta : ℚ
deriving DecidableEq, Repr

/-- Modelled from the spec: the core Model entity, a name and a map from
accelerator name to performance data; its file is not among the provided
sources. -/
structure Model where
  name : String
  perfData : List (String × PerfData)
deriving DecidableEq, Repr

/-- Lookup in a string-keyed registry modelled as an association list. -/
def alLookup {β : Type} : List (String × β) → String → Option β
  | [], _ => none
  | p :: t, k => if p.1 = k then some p.2 else alLookup t k

/-- Lookup of a model's performance data for an accelerator (Model.PerfData). -/
def Model.perf (m : Model) (g : String) : Option PerfData :=
  alLookup m.perfData g

/-- Modelled from the spec: Model.NumInstances(g) is perf.accCount, the number
of accelerator instances per replica (spec sections 3 and 4.4); the core model
file is not among the provided sources.  Absent performance data yields 0. -/
def Model.numInstances (m : Model) (g : String) : Int :=
  match m.perf g with
  | some p => p.accCount
  | none => 0

/-- Modelled from the spec: the Target entity carries the ITL, TTW (the TTFT
budget already discounted, as read by allocation.go as target.TTW) and TPS SLO
values; its file is not among the provided sources. -/
structure Target where
  itl : ℚ
  ttw : ℚ
  tps : ℚ
deriving DecidableEq, Repr

/-- Modelled from the spec: the ServiceClass entity, a map from model name to
SLO target; its file is not among the provided sources. -/
structure ServiceClass where
  modelTargets : List (String × Target)
deriving DecidableEq, Repr

/-- Lookup of the SLO target a service class assigns to a model
(ServiceClass.ModelTarget). -/
def ServiceClass.modelTarget (c : ServiceClass) (m : String) : Option Target :=
  alLookup c.modelTargets m

/-- Server load specification (config.ServerLoadSpec): arrival rate in
requests per minute and the derived average request length in tokens. -/
structure ServerLoadSpec where
  arrivalRate : ℚ
  avgLength : Int
deriving DecidableEq, Repr

/-- Allocation of an accelerator to a server (core.Allocation). -/
structure Allocation where
  accelerator : String
  numReplicas : Int
  batchSize : Int
  cost : ℚ
  value : ℚ
  servTime : ℚ
  waitTime : ℚ
  rho : ℚ
  maxArrvRatePerReplica : ℚ
deriving DecidableEq, Repr

/-- Modelled from the spec: the core Server entity; its file is not among the
provided sources.  Priority is the service-class priority used by the solver,
and allAllocations is the candidate list the enumerator (spec section 4.3)
exposes through Server.AllAllocations. -/
structure Server where
  modelName : String
  serviceClassName : String
  load : Option ServerLoadSpec
  maxBatchSize : Int
  minNumReplicas : Int
  priority : Int
  allAllocations : List Allocation
deriving DecidableEq, Repr

/-- The registries the loader populates: accelerator catalog (with its
iteration order), capacities by accelerator type, models, service classes and
servers (with their iteration order).  A missing capacity key reads as 0, as a
Go map read does. -/
structure Env where
  accelerators : List (String × Accelerator)
  capacities : String → Int
  models : List (String × Model)
  serviceClasses : List (String × ServiceClass)
  servers : List (String × Server)

/-- Lookup in the accelerator registry (core.GetAccelerator). -/
def Env.getAccelerator (env : Env) (g : String) : Option Accelerator :=
  alLookup env.accelerators g

/-- Lookup in the model registry (core.GetModel). -/
def Env.getModel (env : Env) (m : String) : Option Model :=
  alLookup env.models m

/-- Lookup in the service-class registry (core.GetServiceClass). -/
def Env.getServiceClass (env : Env) (c : String) : Option ServiceClass :=
  alLookup env.serviceClasses c

/-- Lookup in the server registry (core.GetServer). -/
def Env.getServer (env : Env) (s : String) : Option Server :=
  alLookup env.servers s

/-- Which metric a binary search bounds: EvalServTime or EvalWaitingTime. -/
inductive Metric where
  | servTime
  | waitTime
deriving DecidableEq, Repr

/-- Result triple of utils.BinarySearch: the rate found, the index indicator
(negative means the limit is unattainable) and whether an error occurred. -/
structure BSOut where
  lambda : ℚ
  ind : Int
  err : Bool
deriving DecidableEq, Repr

/-- Statistics read from the solved queueing model: GetRho, GetAvgServTime and
GetAvgWaitTime. -/
structure QueueStats where
  rho : ℚ
  avgServTime : ℚ
  avgWaitTime : ℚ
deriving DecidableEq, Repr

/-- Deterministic model of the external queue-analysis library: the
binary-search root finder and the solved queue statistics, as functions of the
queue model inputs (max queue length and state-dependent service rates) and
their own arguments. -/
structure QueueOracle where
  binarySearch : Int → List ℚ → ℚ → ℚ → ℚ → Metric → BSOut
  solve : Int → List ℚ → ℚ → QueueStats

/-- The state-dependent service rate vector built in CreateAllocation and
AdjustNumReplicas: entry n-1 is n / ((alpha + beta * n) * K) for n in 1..N. -/
def servRates (alpha beta : ℚ) (K : Int) (N : Int) : List ℚ :=
  (List.range N.toNat).map (fun i =>
    let n : Int := (i : Int) + 1
    (n : ℚ) / ((alpha + beta * (n : ℚ)) * (K : ℚ)))

/-- One guarded binary search of CreateAllocation: none when the search errs
(the source prints and returns nil) or when the index reports the limit
unattainable. -/
def searchCeiling (oracle : QueueOracle) (maxQueue : Int) (servRate : List ℚ)
    (lambdaMin lambdaMax limit : ℚ) (m : Metric) : Option ℚ :=
  let r := oracle.binarySearch maxQueue servRate lambdaMin lambdaMax limit m
  if r.err then none else if r.ind < 0 then none else some r.lambda

/-- Embedding of zeroLoadAllocation (allocation.go): the allocation returned
when the arrival rate or the average length is zero. -/
def zeroLoadAllocation (server : Server) (model : Model) (acc : Accelerator)
    (perf : PerfData) : Allocation :=
  let maxBatchSize := if server.maxBatchSize > 0 then server.maxBatchSize else perf.maxBatchSize
  let numReplicas := server.minNumReplicas
  let gName := acc.name
  let totalNumInstances := model.numInstances gName * numReplicas
  let cost := acc.cost * (totalNumInstances : ℚ)
  let servTime := perf.alpha + perf.beta
  let minServTime := perf.alpha + perf.beta * (maxBatchSize : ℚ)
  let maxArrvRatePerReplica := (maxBatchSize : ℚ) / minServTime
  { accelerator := gName, numReplicas := numReplicas, batchSize := maxBatchSize,
    cost := cost, value := cost, servTime := servTime, waitTime := 0, rho := 0,
    maxArrvRatePerReplica := maxArrvRatePerReplica }

/-- Embedding of CreateAllocation (allocation.go): the allocation of an
accelerator to a server, or none if not feasible.  Entity lookups, the
negative-load guard, the zero-load branch, the batch-size derivation, the
three per-replica rate ceilings, the replica count, cost and the final queue
statistics follow the source line by line; the binary searches and the queue
solve go through the oracle. -/
def createAllocation (oracle : QueueOracle) (env : Env) (serverName gName : String) :
    Option Allocation :=
  match env.getAccelerator gName with
  | none => none
  | some acc =>
  match env.getServer serverName with
  | none => none
  | some server =>
  match server.load with
  | none => none
  | some load =>
  if load.arrivalRate < 0 ∨ load.avgLength < 0 then none else
  match env.getModel server.modelName with
  | none => none
  | some model =>
  match model.perf gName with
  | none => none
  | some perf =>
  match env.getServiceClass server.serviceClassName with
  | none => none
  | some svc =>
  match svc.modelTarget server.modelName with
  | none => none
  | some target =>
  if load.arrivalRate = 0 ∨ load.avgLength = 0 then
    some (zeroLoadAllocation server model acc perf)
  else
    let K := load.avgLength
    let N := if server.maxBatchSize > 0 then server.maxBatchSize
             else max (Int.tdiv (perf.maxBatchSize * perf.atTokens) K) 1
    let maxQueue := N * maxQueueToBatchRatio
    let servTimeLimit := (K : ℚ) * target.itl
    let waitTimeLimit := target.ttw / sloMargin
    let throughputLimit := target.tps / (1000 * (K : ℚ))
    let servRate := servRates perf.alpha perf.beta K N
    let lambdaMin := servRate.headD 0 * delta
    let lambdaMax := servRate.getLastD 0 * (1 - delta)
    -- Go reads servRate[0] and servRate[N-1]; N is at least 1 in this branch,
    -- so the defaults are never used.
    let lamService? := if target.itl > 0 then
        searchCeiling oracle maxQueue servRate lambdaMin lambdaMax servTimeLimit .servTime
      else some lambdaMax
    match lamService? with
    | none => none
    | some lambdaStarService =>
    let lamWait? := if target.ttw > 0 then
        searchCeiling oracle maxQueue servRate lambdaMin lambdaMax waitTimeLimit .waitTime
      else some lambdaMax
    match lamWait? with
    | none => none
    | some lambdaStarWait =>
    let lambdaStarThroughput := if target.tps > 0 then lambdaMax * (1 - stabilitySafetyFraction)
                                else lambdaMax
    let lambdaStar := min (min lambdaStarService lambdaStarWait) lambdaStarThroughput
    let totalLambda := if target.tps = 0 then load.arrivalRate / 60 / 1000 else throughputLimit
    let numReplicas := max (Int.ceil (totalLambda / lambdaStar)) server.minNumReplicas
    let totalNumInstances := model.numInstances gName * numReplicas
    let cost := acc.cost * (totalNumInstances : ℚ)
    let lambda := totalLambda / (numReplicas : ℚ)
    let stats := oracle.solve maxQueue servRate lambda
    some { accelerator := gName, numReplicas := numReplicas, batchSize := N,
           cost := cost, value := cost, servTime := stats.avgServTime / (K : ℚ),
           waitTime := stats.avgWaitTime, rho := stats.rho,
           maxArrvRatePerReplica := lambdaStar }

/-- Outcome of a Go call that may crash: a value, or a runtime panic. -/
inductive GoResult (α : Type) where
  | ok (val : α)
  | panic
deriving DecidableEq, Repr

/-- Embedding of Allocation.Scale (allocation.go): re-evaluate the allocation
on the same accelerator under the current load.  The source dereferences the
result of CreateAllocation without a nil check, so an infeasible re-evaluation
is a nil-pointer dereference, modelled as GoResult.panic. -/
def Allocation.scale (oracle : QueueOracle) (env : Env) (a : Allocation)
    (serverName : String) : GoResult (Option Allocation × Int) :=
  match env.getServer serverName with
  | none => .ok (none, 0)
  | some server =>
  match server.load with
  | none => .ok (none, 0)
  | some _ =>
  match env.getAccelerator a.accelerator with
  | none => .ok (none, 0)
  | some _ =>
  match createAllocation oracle env serverName a.accelerator with
  | none => .panic
  | some alloc => .ok (some alloc, alloc.numReplicas - a.numReplicas)

/-- One step of the ReAllocate scan: the running pair (minVal, minAlloc) is
replaced when minVal is 0 (the unset sentinel) or the new feasible value is
smaller. -/
def reAllocateStep (oracle : QueueOracle) (env : Env) (serverName : String)
    (st : ℚ × Option Allocation) (g : String × Accelerator) : ℚ × Option Allocation :=
  match createAllocation oracle env serverName g.1 with
  | some alloc => if st.1 = 0 ∨ alloc.value < st.1 then (alloc.value, some alloc) else st
  | none => st

/-- Embedding of Allocation.ReAllocate (allocation.go): scan the accelerator
catalog in order, keeping the allocation of least value, where a running
minimum value of 0 means no allocation has been kept yet. -/
def reAllocate (oracle : QueueOracle) (env : Env) (serverName : String) :
    Option Allocation × String :=
  match (env.accelerators.foldl (reAllocateStep oracle env serverName) (0, none)).2 with
  | none => (none, "")
  | some a => (some a, a.accelerator)

/-- Embedding of Allocation.TransitionPenalty (allocation.go). -/
def Allocation.transitionPenalty (a b : Allocation) : ℚ :=
  if a.accelerator = b.accelerator then
    if a.numReplicas = b.numReplicas then 0
    else b.cost - a.cost
  else accelPenaltyFactor * (a.cost + b.cost) + (b.cost - a.cost)

/-- Wire form of an allocation (config.AllocationData) as written by
Allocation.AllocationData. -/
structure AllocationData where
  accelerator : String
  numReplicas : Int
  maxBatch : Int
  cost : ℚ
  itlAverage : ℚ
  waitAverage : ℚ
deriving DecidableEq, Repr

/-- Embedding of Allocation.AllocationData (allocation.go). -/
def Allocation.allocationData (a : Allocation) : AllocationData :=
  { accelerator := a.accelerator, numReplicas := a.numReplicas, maxBatch := a.batchSize,
    cost := a.cost, itlAverage := a.servTime, waitAverage := a.waitTime }

/-- Embedding of AllocationFromData (allocation.go): the fields absent from
the wire form (value, rho, maxArrvRatePerReplica) take the Go zero value. -/
def allocationFromData (d : AllocationData) : Allocation :=
  { accelerator := d.accelerator, numReplicas := d.numReplicas, batchSize := d.maxBatch,
    cost := d.cost, value := 0, servTime := d.itlAverage, waitTime := d.waitAverage,
    rho := 0, maxArrvRatePerReplica := 0 }

/-- Outcome of Allocation.AdjustNumReplicas: success, one of the three error
returns, or the nil-pointer dereference the source performs on the target when
the service class or its target for the model is absent. -/
inductive AdjustResult where
  | ok (a : Allocation)
  | errInvalidAllocation
  | errMissingLoad
  | errMissingPerf
  | panicNilTarget
deriving DecidableEq, Repr

/-- Embedding of Allocation.AdjustNumReplicas (allocation.go): change the
replica count and re-evaluate performance.  The target lookup is guarded by
nil checks, but the later read of target.ITL for servTimeLimit is not; an
absent service class or target is therefore a nil dereference, modelled as
AdjustResult.panicNilTarget. -/
def Allocation.adjustNumReplicas (oracle : QueueOracle) (env : Env) (a : Allocation)
    (numReplicas : Int) (server : Server) (model : Model) : AdjustResult :=
  if a.numReplicas < 1 ∨ a.batchSize < 1 then .errInvalidAllocation
  else
  match server.load with
  | none => .errMissingLoad
  | some load =>
  let K := load.avgLength
  let target? := (env.getServiceClass server.serviceClassName).bind
    (fun svc => svc.modelTarget model.name)
  let totalLambda := match target? with
    | some t => if t.tps > 0 ∧ K > 0 then t.tps / (1000 * (K : ℚ))
                else load.arrivalRate / 60 / 1000
    | none => load.arrivalRate / 60 / 1000
  match model.perf a.accelerator with
  | none => .errMissingPerf
  | some perf =>
  let N := a.batchSize
  let maxQueue := N * maxQueueToBatchRatio
  let servRate := servRates perf.alpha perf.beta K N
  let lambda := totalLambda / (numReplicas : ℚ)
  let stats := oracle.solve maxQueue servRate lambda
  let factor := (numReplicas : ℚ) / (a.numReplicas : ℚ)
  let a1 := { a with rho := stats.rho, servTime := stats.avgServTime / (K : ℚ),
                     waitTime := stats.avgWaitTime,
                     cost := a.cost * factor, value := a.value * factor }
  let lambdaMin := servRate.headD 0 * delta
  let lambdaMax := servRate.getLastD 0 * (1 - delta)
  match target? with
  | none => .panicNilTarget
  | some target =>
  let servTimeLimit := (K : ℚ) * target.itl
  let waitTimeLimit := target.ttw / sloMargin
  let lambdaStarService := if target.itl > 0 then
      let r := oracle.binarySearch maxQueue servRate lambdaMin lambdaMax servTimeLimit .servTime
      if r.err then lambdaMax else r.lambda
    else lambdaMax
  let lambdaStarWait := if target.ttw > 0 then
      let r := oracle.binarySearch maxQueue servRate lambdaMin lambdaMax waitTimeLimit .waitTime
      if r.err then lambdaMax else r.lambda
    else lambdaMax
  let lambdaStarThroughput := if target.tps > 0 then lambdaMax * (1 - stabilitySafetyFraction)
                              else lambdaMax
  let lambdaStar := min (min lambdaStarService lambdaStarWait) lambdaStarThroughput
  .ok { a1 with maxArrvRatePerReplica := lambdaStar, numReplicas := numReplicas }

/-! Concrete data used to evaluate the embedded operations at specific
inputs. -/

/-- Oracle whose binary searches always succeed at rate 1 and whose queue
statistics are all zero; used for concrete evaluations. -/
def constOracle : QueueOracle :=
  { binarySearch := fun _ _ _ _ _ _ => { lambda := 1, ind := 0, err := false },
    solve := fun _ _ _ => { rho := 0, avgServTime := 0, avgWaitTime := 0 } }

/-- Server whose model name has no registered model, so CreateAllocation fails
while the lookups Scale itself guards (server, load, accelerator) succeed. -/
def scaleServer : Server :=
  { modelName := "m", serviceClassName := "c",
    load := some { arrivalRate := 60, avgLength := 512 },
    maxBatchSize := 0, minNumReplicas := 1, priority := 1, allAllocations := [] }

/-- Environment for the Scale evaluation: the accelerator and the server exist
but the model registry is empty. -/
def scaleEnv : Env :=
  { accelerators := [("g", { name := "g", accType := "T", multiplicity := 1, cost := 1 })],
    capacities := fun _ => 0, models := [], serviceClasses := [],
    servers := [("s", scaleServer)] }

/-- Allocation on accelerator g with one replica, used as the receiver of
Scale and AdjustNumReplicas evaluations. -/
def scaleAlloc : Allocation :=
  { accelerator := "g", numReplicas := 1, batchSize := 1, cost := 1, value := 1,
    servTime := 0, waitTime := 0, rho := 0, maxArrvRatePerReplica := 0 }

/-- Server used for the AdjustNumReplicas evaluation: it has a load, and its
service class name is not registered. -/
def adjServer : Server :=
  { modelName := "m", serviceClassName := "c",
    load := some { arrivalRate := 60, avgLength := 8 },
    maxBatchSize := 0, minNumReplicas := 1, priority := 1, allAllocations := [] }

/-- Model used for the AdjustNumReplicas evaluation: performance data for
accelerator g is present. -/
def adjModel : Model :=
  { name := "m",
    perfData := [("g", { accCount := 1, maxBatchSize := 4, atTokens := 8, alpha := 1, beta := 1 })] }

/-- Environment for the AdjustNumReplicas evaluation: the model exists but the
service-class registry is empty. -/
def adjEnv : Env :=
  { accelerators := [], capacities := fun _ => 0, models := [("m", adjModel)],
    serviceClasses := [], servers := [] }

/-! Claim theorems about the allocation operations. -/

/-- C10: for every allocation a, AllocationFromData (AllocationData a) agrees
with a on accelerator, numReplicas, batchSize, cost, servTime (carried as
ITLAverage) and waitTime, and has value, rho and maxArrvRatePerReplica equal
to zero. -/
theorem allocationData_roundtrip (a : Allocation) :
    allocationFromData (Allocation.allocationData a) =
      { a with value := 0, rho := 0, maxArrvRatePerReplica := 0 } := rfl

/-- Allocation used to refute C7: cost 5 on accelerator g with one replica. -/
def penaltyA : Allocation :=
  { accelerator := "g", numReplicas := 1, batchSize := 1, cost := 5, value := 5,
    servTime := 0, waitTime := 0, rho := 0, maxArrvRatePerReplica := 0 }

/-- Allocation used to refute C7: cost 3 on the same accelerator g with two
replicas. -/
def penaltyB : Allocation :=
  { penaltyA with numReplicas := 2, cost := 3, value := 3 }

/-- Allocation on a different accelerator h with cost 3, used in the witness
for the amended C7. -/
def penaltyC : Allocation :=
  { penaltyA with accelerator := "h", cost := 3, value := 3 }

/-- C7 counterexample: on the same accelerator with different replica counts
the source returns the signed difference b.cost - a.cost, here -2, while the
claim asserts the absolute value, here 2. -/
theorem transitionPenalty_not_abs :
    Allocation.transitionPenalty penaltyA penaltyB = -2 ∧
    |penaltyB.cost - penaltyA.cost| = 2 := by
  constructor
  · norm_num [Allocation.transitionPenalty, penaltyA, penaltyB]
  · norm_num [penaltyA, penaltyB]

/-- C7 (amended): TransitionPenalty(a, b) is 0 on the same accelerator with
equal replica counts, the signed difference b.cost - a.cost on the same
accelerator with different replica counts, and
AccelPenaltyFactor * (a.cost + b.cost) + (b.cost - a.cost) across
accelerators; hence the same-accelerator two-way sum is 0, and the
cross-accelerator two-way sum is 2 * AccelPenaltyFactor * (a.cost + b.cost). -/
theorem transitionPenalty_characterization (a b : Allocation) :
    (a.accelerator = b.accelerator → a.numReplicas = b.numReplicas →
        Allocation.transitionPenalty a b = 0) ∧
    (a.accelerator = b.accelerator → a.numReplicas ≠ b.numReplicas →
        Allocation.transitionPenalty a b = b.cost - a.cost ∧
        Allocation.transitionPenalty a b + Allocation.transitionPenalty b a = 0) ∧
    (a.accelerator ≠ b.accelerator →
        Allocation.transitionPenalty a b =
          accelPenaltyFactor * (a.cost + b.cost) + (b.cost - a.cost) ∧
        Allocation.transitionPenalty a b + Allocation.transitionPenalty b a =
          2 * accelPenaltyFactor * (a.cost + b.cost)) := by
  unfold Allocation.transitionPenalty
  refine ⟨fun h1 h2 => by simp [h1, h2], fun h1 h2 => ?_, fun h1 => ?_⟩
  · rw [if_pos h1, if_neg h2, if_pos h1.symm, if_neg (Ne.symm h2)]
    exact ⟨rfl, by ring⟩
  · rw [if_neg h1, if_neg (Ne.symm h1)]
    exact ⟨rfl, by ring⟩

/-- Witness for the amended C7: the cross-accelerator sum identity at the
concrete allocations penaltyA and penaltyC. -/
theorem transitionPenalty_characterization_witness :
    Allocation.transitionPenalty penaltyA penaltyC +
      Allocation.transitionPenalty penaltyC penaltyA =
      2 * accelPenaltyFactor * (penaltyA.cost + penaltyC.cost) :=
  ((transitionPenalty_characterization penaltyA penaltyC).2.2 (by decide)).2

/-- C3: Scale panics with a nil-pointer dereference when CreateAllocation is
infeasible (here: the model of the server is not registered) although the
server, load and accelerator lookups all succeed, instead of returning
(none, 0) as the claim states. -/
theorem scale_panics_when_infeasible :
    Allocation.scale constOracle scaleEnv scaleAlloc "s" = .panic := by
  decide

/-- C8: AdjustNumReplicas on a valid allocation with a present load and
present performance data, but with the service class absent, dereferences the
nil target while computing servTimeLimit and panics, instead of completing
without failure as the claim states. -/
theorem adjustNumReplicas_panics_without_target :
    Allocation.adjustNumReplicas constOracle adjEnv scaleAlloc 2 adjServer adjModel =
      .panicNilTarget := by
  decide

/-- Invariant of the ReAllocate scan state: an empty slot carries running
minimum 0, a filled slot carries the value of its allocation, which is
nonzero. -/
def reAllocInv (st : ℚ × Option Allocation) : Prop :=
  (st.2 = none → st.1 = 0) ∧ (∀ a, st.2 = some a → st.1 = a.value ∧ a.value ≠ 0)

/-- Behaviour of the ReAllocate fold over any suffix of the catalog, provided
every feasible allocation seen has nonzero value: the invariant is preserved,
the slot stays empty exactly when it started empty and everything scanned is
infeasible, and a final allocation is either the initial one or comes from the
scanned list and has minimal value among both. -/
theorem reAllocate_foldl (oracle : QueueOracle) (env : Env) (s : String) :
    ∀ (l : List (String × Accelerator)) (st : ℚ × Option Allocation),
      (∀ p ∈ l, ∀ a, createAllocation oracle env s p.1 = some a → a.value ≠ 0) →
      reAllocInv st →
      reAllocInv (l.foldl (reAllocateStep oracle env s) st) ∧
      ((l.foldl (reAllocateStep oracle env s) st).2 = none ↔
        st.2 = none ∧ ∀ p ∈ l, createAllocation oracle env s p.1 = none) ∧
      (∀ a, (l.foldl (reAllocateStep oracle env s) st).2 = some a →
        (st.2 = some a ∨ ∃ p ∈ l, createAllocation oracle env s p.1 = some a) ∧
        (∀ b, st.2 = some b → a.value ≤ b.value) ∧
        (∀ p ∈ l, ∀ b, createAllocation oracle env s p.1 = some b → a.value ≤ b.value)) := by
  intro l
  induction l with
  | nil =>
    intro st hnz hst
    refine ⟨hst, by simp, ?_⟩
    intro a ha
    simp only [List.foldl_nil] at ha
    refine ⟨Or.inl ha, ?_, by simp⟩
    intro b hb
    rw [ha] at hb
    injection hb with h
    rw [← h]
  | cons p t ih =>
    intro st hnz hst
    have hnzt : ∀ q ∈ t, ∀ a, createAllocation oracle env s q.1 = some a → a.value ≠ 0 :=
      fun q hq => hnz q (List.mem_cons_of_mem p hq)
    simp only [List.foldl_cons]
    rcases hc : createAllocation oracle env s p.1 with _ | c
    · have hstep : reAllocateStep oracle env s st p = st := by
        simp [reAllocateStep, hc]
      rw [hstep]
      obtain ⟨h1, h2, h3⟩ := ih st hnzt hst
      refine ⟨h1, ?_, ?_⟩
      · rw [h2]
        constructor
        · rintro ⟨hn, hall⟩
          refine ⟨hn, ?_⟩
          intro q hq
          rcases List.mem_cons.mp hq with hq | hq
          · rw [hq]; exact hc
          · exact hall q hq
        · rintro ⟨hn, hall⟩
          exact ⟨hn, fun q hq => hall q (List.mem_cons_of_mem p hq)⟩
      · intro a ha
        obtain ⟨m1, m2, m3⟩ := h3 a ha
        refine ⟨?_, m2, ?_⟩
        · rcases m1 with m1 | ⟨q, hq, hcq⟩
          · exact Or.inl m1
          · exact Or.inr ⟨q, List.mem_cons_of_mem p hq, hcq⟩
        · intro q hq b hcb
          rcases List.mem_cons.mp hq with hq | hq
          · rw [hq, hc] at hcb
            exact Option.noConfusion hcb
          · exact m3 q hq b hcb
    · have hcval : c.value ≠ 0 := hnz p (List.mem_cons_self p t) c hc
      by_cases hcond : st.1 = 0 ∨ c.value < st.1
      · have hstep : reAllocateStep oracle env s st p = (c.value, some c) := by
          simp only [reAllocateStep, hc]
          rw [if_pos hcond]
        rw [hstep]
        have hst1 : reAllocInv (c.value, some c) := by
          refine ⟨fun h => Option.noConfusion h, fun a ha => ?_⟩
          injection ha with h
          rw [← h]
          exact ⟨rfl, hcval⟩
        obtain ⟨h1, h2, h3⟩ := ih (c.value, some c) hnzt hst1
        refine ⟨h1, ?_, ?_⟩
        · rw [h2]
          constructor
          · rintro ⟨hn, _⟩
            exact Option.noConfusion hn
          · rintro ⟨_, hall⟩
            have hpc := hall p (List.mem_cons_self p t)
            rw [hc] at hpc
            exact Option.noConfusion hpc
        · intro a ha
          obtain ⟨m1, m2, m3⟩ := h3 a ha
          have hac : a.value ≤ c.value := m2 c rfl
          refine ⟨?_, ?_, ?_⟩
          · rcases m1 with m1 | ⟨q, hq, hcq⟩
            · injection m1 with h
              rw [h] at hc
              exact Or.inr ⟨p, List.mem_cons_self p t, hc⟩
            · exact Or.inr ⟨q, List.mem_cons_of_mem p hq, hcq⟩
          · intro b hb
            obtain ⟨hv, hbnz⟩ := hst.2 b hb
            rcases hcond with hcond | hcond
            · exact absurd (hv.symm.trans hcond) hbnz
            · rw [hv] at hcond
              exact le_of_lt (lt_of_le_of_lt hac hcond)
          · intro q hq b hcb
            rcases List.mem_cons.mp hq with hq | hq
            · rw [hq, hc] at hcb
              injection hcb with h
              rw [← h]
              exact hac
            · exact m3 q hq b hcb
      · have hstep : reAllocateStep oracle env s st p = st := by
          simp only [reAllocateStep, hc]
          rw [if_neg hcond]
        rw [hstep]
        push_neg at hcond
        obtain ⟨hne0, hle⟩ := hcond
        rcases hb0 : st.2 with _ | b0
        · exact absurd (hst.1 hb0) hne0
        · obtain ⟨hv, hbnz⟩ := hst.2 b0 hb0
          obtain ⟨h1, h2, h3⟩ := ih st hnzt hst
          refine ⟨h1, ?_, ?_⟩
          · rw [h2, hb0]
            simp
          · intro a ha
            obtain ⟨m1, m2, m3⟩ := h3 a ha
            rw [hb0] at m1 m2
            refine ⟨?_, m2, ?_⟩
            · rcases m1 with m1 | ⟨q, hq, hcq⟩
              · exact Or.inl m1
              · exact Or.inr ⟨q, List.mem_cons_of_mem p hq, hcq⟩
            · intro q hq b hcb
              rcases List.mem_cons.mp hq with hq | hq
              · rw [hq, hc] at hcb
                injection hcb with h
                rw [← h]
                calc a.value ≤ b0.value := m2 b0 rfl
                  _ = st.1 := hv.symm
                  _ ≤ c.value := hle
              · exact m3 q hq b hcb

/-- C6 (amended): provided every feasible allocation over the catalog has
nonzero value (the source treats a running minimum of 0 as the unset
sentinel, so a feasible zero-value allocation can be superseded), ReAllocate
returns (none, the empty string) exactly when no accelerator is feasible, and
otherwise returns a feasible allocation of minimal value together with its
accelerator name, ties broken by iteration order. -/
theorem reAllocate_minimal (oracle : QueueOracle) (env : Env) (s : String)
    (hnz : ∀ p ∈ env.accelerators, ∀ a,
      createAllocation oracle env s p.1 = some a → a.value ≠ 0) :
    ((reAllocate oracle env s).1 = none ↔
      ∀ p ∈ env.accelerators, createAllocation oracle env s p.1 = none) ∧
    ((reAllocate oracle env s).1 = none → (reAllocate oracle env s).2 = "") ∧
    (∀ a, (reAllocate oracle env s).1 = some a →
      (reAllocate oracle env s).2 = a.accelerator ∧
      (∃ p ∈ env.accelerators, createAllocation oracle env s p.1 = some a) ∧
      ∀ p ∈ env.accelerators, ∀ b, createAllocation oracle env s p.1 = some b →
        a.value ≤ b.value) := by
  have base : reAllocInv ((0 : ℚ), (none : Option Allocation)) :=
    ⟨fun _ => rfl, fun a ha => Option.noConfusion ha⟩
  obtain ⟨_, h2, h3⟩ := reAllocate_foldl oracle env s env.accelerators (0, none) hnz base
  rcases hF : (env.accelerators.foldl (reAllocateStep oracle env s) (0, none)).2 with _ | a0
  · have hre : reAllocate oracle env s = (none, "") := by
      unfold reAllocate
      rw [hF]
    rw [hre]
    refine ⟨?_, fun _ => rfl, ?_⟩
    · constructor
      · intro _
        exact (h2.mp hF).2
      · intro _
        rfl
    · intro a ha
      exact absurd ha (by simp)
  · have hre : reAllocate oracle env s = (some a0, a0.accelerator) := by
      unfold reAllocate
      rw [hF]
    rw [hre]
    obtain ⟨m1, m2, m3⟩ := h3 a0 hF
    refine ⟨?_, ?_, ?_⟩
    · constructor
      · intro h
        exact Option.noConfusion h
      · intro hall
        have hcontra := h2.mpr ⟨rfl, hall⟩
        rw [hF] at hcontra
        exact Option.noConfusion hcontra
    · intro h
      exact Option.noConfusion h
    · intro a ha
      injection ha with h
      rw [← h]
      refine ⟨rfl, ?_, m3⟩
      rcases m1 with m1 | m1
      · exact Option.noConfusion m1
      · exact m1

/-- Load with zero arrival rate, so CreateAllocation takes the zero-load
branch with no oracle involvement. -/
def zeroLoad : ServerLoadSpec := { arrivalRate := 0, avgLength := 0 }

/-- Server used in the ReAllocate evaluations. -/
def reallocServer : Server :=
  { modelName := "m", serviceClassName := "c", load := some zeroLoad,
    maxBatchSize := 0, minNumReplicas := 1, priority := 1, allAllocations := [] }

/-- Performance data used in the ReAllocate evaluations. -/
def reallocPerf : PerfData :=
  { accCount := 1, maxBatchSize := 4, atTokens := 8, alpha := 1, beta := 1 }

/-- Environment refuting C6: accelerator g0 is free of charge, so its feasible
allocation has value 0, and accelerator g1 costs 5. -/
def reallocEnv : Env :=
  { accelerators := [("g0", { name := "g0", accType := "T", multiplicity := 1, cost := 0 }),
                     ("g1", { name := "g1", accType := "T", multiplicity := 1, cost := 5 })],
    capacities := fun _ => 0,
    models := [("m", { name := "m", perfData := [("g0", reallocPerf), ("g1", reallocPerf)] })],
    serviceClasses := [("c", { modelTargets := [("m", { itl := 1, ttw := 1, tps := 0 })] })],
    servers := [("s", reallocServer)] }

/-- C6 counterexample: on reallocEnv the catalog holds a feasible allocation
of value 0 on g0, yet ReAllocate returns the g1 allocation of value 5, because
the running minimum confuses the value 0 with its unset sentinel. -/
theorem reAllocate_not_minimal :
    ((reAllocate constOracle reallocEnv "s").1.map Allocation.value,
     (reAllocate constOracle reallocEnv "s").2,
     (createAllocation constOracle reallocEnv "s" "g0").map Allocation.value) =
    (some 5, "g1", some 0) := by
  simp [reAllocate, reAllocateStep, createAllocation, zeroLoadAllocation,
    Env.getAccelerator, Env.getServer, Env.getModel, Env.getServiceClass,
    Model.perf, ServiceClass.modelTarget, Model.numInstances, alLookup,
    reallocEnv, reallocServer, reallocPerf, zeroLoad]

/-- Environment for the amended C6 witness: as reallocEnv but with both
accelerators of positive cost, so every feasible value is nonzero. -/
def reallocEnvW : Env :=
  { reallocEnv with
    accelerators := [("g0", { name := "g0", accType := "T", multiplicity := 1, cost := 2 }),
                     ("g1", { name := "g1", accType := "T", multiplicity := 1, cost := 5 })] }

/-- Witness for the amended C6: at reallocEnvW the feasibility characterization
of the none result holds, with the nonzero-value hypothesis discharged by
evaluation. -/
theorem reAllocate_minimal_witness :
    ((reAllocate constOracle reallocEnvW "s").1 = none ↔
      ∀ p ∈ reallocEnvW.accelerators, createAllocation constOracle reallocEnvW "s" p.1 = none) :=
  (reAllocate_minimal constOracle reallocEnvW "s" (by
    intro p hp a ha
    fin_cases hp <;>
    · simp [createAllocation, zeroLoadAllocation, Env.getAccelerator,
        Env.getServer, Env.getModel, Env.getServiceClass, Model.perf,
        ServiceClass.modelTarget, Model.numInstances, alLookup, reallocEnvW,
        reallocEnv, reallocServer, reallocPerf, zeroLoad] at ha
      subst ha
      norm_num)).1

/-- C2: in the positive-load branch of CreateAllocation (all lookups succeed,
arrival rate and average length positive, nonnegative TPS target), when the
service-time and wait ceilings resolve to lS and lW, the returned allocation
has replica count max(ceil(Lambda / lambdaStar), minNumReplicas), where
Lambda is TPS / (1000 K) when TPS > 0 and arrivalRate / 60 / 1000 otherwise,
and lambdaStar is the minimum of the service-time, wait and throughput
per-replica ceilings. -/
theorem createAllocation_numReplicas (oracle : QueueOracle) (env : Env)
    (sName gName : String) (acc : Accelerator) (server : Server)
    (load : ServerLoadSpec) (model : Model) (perf : PerfData)
    (svc : ServiceClass) (target : Target)
    (K N mq : Int) (sr : List ℚ) (lmin lmax lS lW : ℚ)
    (hacc : env.getAccelerator gName = some acc)
    (hsrv : env.getServer sName = some server)
    (hload : server.load = some load)
    (hmodel : env.getModel server.modelName = some model)
    (hperf : model.perf gName = some perf)
    (hsvc : env.getServiceClass server.serviceClassName = some svc)
    (htgt : svc.modelTarget server.modelName = some target)
    (har : 0 < load.arrivalRate) (hK : 0 < load.avgLength)
    (htps : 0 ≤ target.tps)
    (hKd : K = load.avgLength)
    (hNd : N = if server.maxBatchSize > 0 then server.maxBatchSize
           else max (Int.tdiv (perf.maxBatchSize * perf.atTokens) K) 1)
    (hmq : mq = N * maxQueueToBatchRatio)
    (hsr : sr = servRates perf.alpha perf.beta K N)
    (hlmin : lmin = sr.headD 0 * delta)
    (hlmax : lmax = sr.getLastD 0 * (1 - delta))
    (hS : (if target.itl > 0 then
        searchCeiling oracle mq sr lmin lmax ((K : ℚ) * target.itl) .servTime
      else some lmax) = some lS)
    (hW : (if target.ttw > 0 then
        searchCeiling oracle mq sr lmin lmax (target.ttw / sloMargin) .waitTime
      else some lmax) = some lW) :
    (createAllocation oracle env sName gName).map Allocation.numReplicas =
      some (max
        (Int.ceil ((if 0 < target.tps then target.tps / (1000 * (K : ℚ))
            else load.arrivalRate / 60 / 1000) /
          (min (min lS lW)
            (if 0 < target.tps then lmax * (1 - stabilitySafetyFraction) else lmax))))
        server.minNumReplicas) := by
  subst hKd hNd hmq hsr hlmin hlmax
  unfold createAllocation
  simp only [hacc, hsrv, hload, hmodel, hperf, hsvc, htgt]
  rw [if_neg (by push_neg; exact ⟨le_of_lt har, le_of_lt hK⟩)]
  rw [if_neg (by push_neg; exact ⟨ne_of_gt har, ne_of_gt hK⟩)]
  simp only [hS, hW, Option.map_some']
  rcases lt_or_eq_of_le htps with hpos | hzero
  · simp only [if_neg (ne_of_gt hpos), if_pos hpos]
  · have hz : target.tps = 0 := hzero.symm
    have hnlt : ¬(0 < target.tps) := hzero ▸ lt_irrefl 0
    simp only [if_pos hz, if_neg hnlt]

/-- Model used in the C2 witness environment. -/
def c2Model : Model :=
  { name := "m",
    perfData := [("g", { accCount := 1, maxBatchSize := 4, atTokens := 8, alpha := 1, beta := 1 })] }

/-- Server used in the C2 witness environment: positive load and a configured
batch override of 2. -/
def c2Server : Server :=
  { modelName := "m", serviceClassName := "c",
    load := some { arrivalRate := 60, avgLength := 2 },
    maxBatchSize := 2, minNumReplicas := 1, priority := 1, allAllocations := [] }

/-- Environment for the C2 witness: one accelerator and a target with ITL and
TTW SLOs but no TPS SLO. -/
def c2Env : Env :=
  { accelerators := [("g", { name := "g", accType := "T", multiplicity := 1, cost := 1 })],
    capacities := fun _ => 0,
    models := [("m", c2Model)],
    serviceClasses := [("c", { modelTargets := [("m", { itl := 1, ttw := 1, tps := 0 })] })],
    servers := [("s", c2Server)] }

/-- Witness for C2 at the concrete environment c2Env, with both ceilings
resolved to 1 by the constant oracle. -/
theorem createAllocation_numReplicas_witness :
    Option.map Allocation.numReplicas (createAllocation constOracle c2Env "s" "g") =
      some
        (max (Int.ceil ((if 0 < (0 : ℚ) then
              (0 : ℚ) / (1000 * ((2 : Int) : ℚ))
            else (60 : ℚ) / 60 / 1000) /
            (min (min 1 1)
              (if 0 < (0 : ℚ) then
                (servRates 1 1 2 2).getLastD 0 * (1 - delta) * (1 - stabilitySafetyFraction)
              else (servRates 1 1 2 2).getLastD 0 * (1 - delta)))))
          (1 : Int)) := by
  have h := createAllocation_numReplicas constOracle c2Env "s" "g" _ _ _ _ _ _ _
    2 2 8 (servRates 1 1 2 2)
    ((servRates 1 1 2 2).headD 0 * delta)
    ((servRates 1 1 2 2).getLastD 0 * (1 - delta)) 1 1
    rfl rfl rfl rfl rfl rfl rfl
    (by norm_num) (by norm_num) (by norm_num)
    rfl rfl rfl rfl rfl rfl
    (by norm_num [searchCeiling, constOracle])
    (by norm_num [searchCeiling, constOracle])
  exact h

/-! Embedding of the greedy solver (the solver package source file). -/

/-- Entry for a server during greedy allocation (solver.serverEntry). -/
structure serverEntry where
  serverName : String
  priority : Int
  curIndex : Nat
  allocations : List Allocation
  delta : ℚ
deriving DecidableEq, Repr

/-- Embedding of cmp.Compare for rationals: -1, 0 or 1. -/
def qcmp (x y : ℚ) : Int := if x < y then -1 else if y < x then 1 else 0

/-- Embedding of cmp.Compare for integers: -1, 0 or 1. -/
def icmp (x y : Int) : Int := if x < y then -1 else if y < x then 1 else 0

/-- Value of the current candidate of an entry, as read by the ordering
function.  The source indexes allocations[curIndex], which is in range on
every solver path; an out-of-range read would panic and is given the default
value 0 here. -/
def serverEntry.curValue (e : serverEntry) : ℚ :=
  ((e.allocations.get? e.curIndex).map Allocation.value).getD 0

/-- Embedding of the server-entry ordering function of SolveGreedy: straight
priorities, then delta values, then current candidate values. -/
def orderFunc (a b : serverEntry) : Int :=
  if a.priority = b.priority then
    if a.delta = b.delta then qcmp b.curValue a.curValue
    else qcmp b.delta a.delta
  else icmp a.priority b.priority

/-- Construction of a server entry in SolveGreedy: candidates sorted ascending
by value, delta the value gap to the next candidate, or the maxFloat32
sentinel when there is only one candidate. -/
def mkEntry (serverName : String) (server : Server) : serverEntry :=
  let sorted := server.allAllocations.mergeSort (fun a b => decide (a.value ≤ b.value))
  { serverName := serverName, priority := server.priority, curIndex := 0,
    allocations := sorted,
    delta := if 1 < sorted.length then
        ((sorted.get? 1).map Allocation.value).getD 0 -
          ((sorted.get? 0).map Allocation.value).getD 0
      else maxFloat32 }

/-- One server visit of the first phase of SolveGreedy: remove its desired
allocation, and append an entry when it has at least one candidate. -/
def buildStep (st : (String → Option Allocation) × List serverEntry)
    (p : String × Server) : (String → Option Allocation) × List serverEntry :=
  let assign1 := upd st.1 p.1 none
  if p.2.allAllocations = [] then (assign1, st.2)
  else (assign1, st.2 ++ [mkEntry p.1 p.2])

/-- The first phase folded over the server registry. -/
def buildEntries (servers : List (String × Server))
    (assign : String → Option Allocation) :
    (String → Option Allocation) × List serverEntry :=
  servers.foldl buildStep (assign, [])

/-- Reinsertion of an entry at the position slices.BinarySearchFunc finds in
the ordered residual list: before the first entry that does not order
strictly below it. -/
def insertOrdered (l : List serverEntry) (e : serverEntry) : List serverEntry :=
  l.takeWhile (fun x => decide (orderFunc x e < 0)) ++
    e :: l.dropWhile (fun x => decide (orderFunc x e < 0))

/-- Fuel bound for the greedy loop: each iteration pops an entry and either
drops it for good or reinserts it with its candidate index advanced, so the
number of iterations never exceeds the number of entries plus the total
number of candidate positions. -/
def loopFuel (entries : List serverEntry) : Nat :=
  entries.length + (entries.map (fun e => e.allocations.length + 1)).sum + 1

/-- The main loop of SolveGreedy: pop the top entry; drop it when it has no
candidates or its server or model is missing; serve its current candidate
when the capacity check passes; otherwise advance its index and reinsert it,
or move it to the unallocated list when its candidates are exhausted.  The
source reads the accelerator of the candidate without a nil check (a missing
accelerator would panic); that case drops the entry here.  The fuel only
bounds the iteration count; solveGreedy passes a fuel value the loop can
never exhaust. -/
def greedyLoop (env : Env) :
    Nat → List serverEntry → (String → Int) → (String → Option Allocation) →
    List serverEntry →
    (String → Int) × (String → Option Allocation) × List serverEntry
  | 0, _, available, assign, unalloc => (available, assign, unalloc)
  | _ + 1, [], available, assign, unalloc => (available, assign, unalloc)
  | fuel + 1, top :: rest, available, assign, unalloc =>
    if top.allocations = [] then greedyLoop env fuel rest available assign unalloc
    else
      match env.getServer top.serverName with
      | none => greedyLoop env fuel rest available assign unalloc
      | some server =>
        match env.getModel server.modelName with
        | none => greedyLoop env fuel rest available assign unalloc
        | some model =>
          match top.allocations.get? top.curIndex with
          | none => greedyLoop env fuel rest available assign unalloc
          | some alloc =>
            match env.getAccelerator alloc.accelerator with
            | none => greedyLoop env fuel rest available assign unalloc
            | some acc =>
              let tName := acc.accType
              let unitsPerReplica := model.numInstances alloc.accelerator * acc.multiplicity
              let count := alloc.numReplicas * unitsPerReplica
              if count ≤ available tName then
                greedyLoop env fuel rest (upd available tName (available tName - count))
                  (upd assign top.serverName (some alloc)) unalloc
              else
                let top1 := { top with curIndex := top.curIndex + 1 }
                if top1.curIndex + 1 < top1.allocations.length then
                  let top2 := { top1 with delta :=
                    ((top1.allocations.get? (top1.curIndex + 1)).map Allocation.value).getD 0 -
                    ((top1.allocations.get? top1.curIndex).map Allocation.value).getD 0 }
                  greedyLoop env fuel (insertOrdered rest top2) available assign unalloc
                else if top1.curIndex = top1.allocations.length then
                  greedyLoop env fuel rest available assign (unalloc ++ [top1])
                else
                  greedyLoop env fuel (insertOrdered rest { top1 with delta := maxFloat32 })
                    available assign unalloc

/-- Inner candidate scan of processUnallocatedServers for one entry: serve the
first candidate that admits at least one replica under the remaining
capacity, scaling its cost and value by the granted fraction and stopping.
The source re-fetches the server and model for every candidate and
dereferences the server before its nil check; the missing-server panic stops
the scan here, and a missing model or accelerator skips the candidate. -/
def pusScan (env : Env) (serverName : String) :
    List Allocation → (String → Int) × (String → Option Allocation) →
    (String → Int) × (String → Option Allocation)
  | [], st => st
  | alloc :: rest, st =>
    match env.getServer serverName with
    | none => st
    | some server =>
      match env.getModel server.modelName, env.getAccelerator alloc.accelerator with
      | some model, some acc =>
        let unitsPerReplica := model.numInstances alloc.accelerator * acc.multiplicity
        if 0 < unitsPerReplica then
          let maxReplicas := min (Int.tdiv (st.1 acc.accType) unitsPerReplica) alloc.numReplicas
          if 0 < maxReplicas then
            let factor := (maxReplicas : ℚ) / (alloc.numReplicas : ℚ)
            let alloc1 := { alloc with
              cost := alloc.cost * factor,
              value := alloc.value * factor,
              numReplicas := maxReplicas }
            (upd st.1 acc.accType (st.1 acc.accType - maxReplicas * unitsPerReplica),
             upd st.2 serverName (some alloc1))
          else pusScan env serverName rest st
        else pusScan env serverName rest st
      | _, _ => pusScan env serverName rest st

/-- Embedding of processUnallocatedServers (the PriorityExhaustive policy):
one unallocated server at a time, exhaustively. -/
def processUnallocatedServers (env : Env) (serverEntries : List serverEntry)
    (st : (String → Int) × (String → Option Allocation)) :
    (String → Int) × (String → Option Allocation) :=
  serverEntries.foldl (fun st e => pusScan env e.serverName e.allocations st) st

/-- Round-robin allocation ticket (solver.serverAllocationTicket).  The entry
and server pointers of the source are recovered from the server name; the
model pointer is stored at creation as in the source. -/
structure serverAllocationTicket where
  active : Bool
  accType : String
  unitsPerReplica : Int
  numReplicas : Int
  finalAlloc : Option Allocation
  model : Model
deriving DecidableEq, Repr

/-- Removal of a key from an association list (Go map delete). -/
def tkErase {β : Type} (l : List (String × β)) (k : String) : List (String × β) :=
  l.filter (fun p => decide (p.1 ≠ k))

/-- In-place update of a key of an association list. -/
def tkUpdate {β : Type} (l : List (String × β)) (k : String) (v : β) :
    List (String × β) :=
  l.map (fun p => if p.1 = k then (k, v) else p)

/-- Write of a key of an association list (Go map assignment): update the
entry when the key is present, append it otherwise. -/
def tkInsert {β : Type} (l : List (String × β)) (k : String) (v : β) :
    List (String × β) :=
  if (alLookup l k).isSome then tkUpdate l k v else l ++ [(k, v)]

/-- Ticket creation of processUnallocatedServerGroup: one inactive ticket per
entry whose server and model resolve.  The source dereferences the server
before its nil check; a missing server is a panic there and a skip here. -/
def mkTickets (env : Env) (serverEntries : List serverEntry) :
    List (String × serverAllocationTicket) :=
  serverEntries.foldl
    (fun tks e =>
      match env.getServer e.serverName with
      | none => tks
      | some server =>
        match env.getModel server.modelName with
        | none => tks
        | some model =>
          tkInsert tks e.serverName
            { active := false, accType := "", unitsPerReplica := 0,
              numReplicas := 0, finalAlloc := none, model := model })
    []

/-- Activation scan of a round-robin ticket: the first candidate whose
accelerator exists, whose units per replica are positive and whose type has
at least that many units available. -/
def rrActivate (env : Env) (model : Model) (available : String → Int) :
    List Allocation → Option (String × Int × Allocation)
  | [] => none
  | alloc :: rest =>
    match env.getAccelerator alloc.accelerator with
    | none => rrActivate env model available rest
    | some acc =>
      let unitsPerReplica := model.numInstances alloc.accelerator * acc.multiplicity
      if 0 < unitsPerReplica ∧ unitsPerReplica ≤ available acc.accType then
        some (acc.accType, unitsPerReplica, alloc)
      else rrActivate env model available rest

/-- State of the round-robin procedure: the live tickets, the tickets that
have received at least one replica, and the remaining capacity. -/
structure RRState where
  tickets : List (String × serverAllocationTicket)
  allocated : List (String × serverAllocationTicket)
  available : String → Int

/-- One member visit of the round-robin loop: activate a fresh ticket, grant
one replica to an active ticket that still fits, and drop a ticket that
cannot progress.  The grant check of the source is
min(available / unitsPerReplica, finalAlloc.numReplicas) > 0; the accumulated
ticket.numReplicas is not compared against finalAlloc.numReplicas. -/
def rrStep (env : Env) (st : RRState) (e : serverEntry) : RRState :=
  match alLookup st.tickets e.serverName with
  | none => st
  | some ticket =>
    let act? : Option serverAllocationTicket :=
      if ticket.active then some ticket
      else
        match rrActivate env ticket.model st.available e.allocations with
        | some (t, u, alloc) =>
          some { ticket with
            active := true,
            accType := t,
            unitsPerReplica := u,
            finalAlloc := some alloc }
        | none => none
    match act? with
    | none => { st with tickets := tkErase st.tickets e.serverName }
    | some tk =>
      let replicasAvailable := Int.tdiv (st.available tk.accType) tk.unitsPerReplica
      let cap := match tk.finalAlloc with
        | some alloc => alloc.numReplicas
        | none => 0
      if 0 < min replicasAvailable cap then
        let tk1 := { tk with numReplicas := tk.numReplicas + 1 }
        { tickets := tkUpdate st.tickets e.serverName tk1,
          allocated := tkInsert st.allocated e.serverName tk1,
          available := upd st.available tk.accType
            (st.available tk.accType - tk.unitsPerReplica) }
      else { st with tickets := tkErase st.tickets e.serverName }

/-- One full pass of the round-robin loop: the step above applied to the group
members in input order. -/
def rrPass (env : Env) (serverEntries : List serverEntry) (st : RRState) : RRState :=
  serverEntries.foldl (rrStep env) st

/-- Fuel bound for the round-robin loop: every pass over a nonempty ticket set
removes a ticket or consumes at least one available unit of a type named by a
group candidate, so the number of passes never exceeds this bound. -/
def rrFuel (env : Env) (serverEntries : List serverEntry)
    (available : String → Int) : Nat :=
  (mkTickets env serverEntries).length +
  (serverEntries.map (fun e =>
    (e.allocations.map (fun a =>
      match env.getAccelerator a.accelerator with
      | some acc => (available acc.accType).toNat
      | none => 0)).sum)).sum + 1

/-- The outer round-robin loop: repeat full passes until no ticket is left.
The fuel only bounds the pass count; processUnallocatedServerGroup passes a
value the loop can never exhaust. -/
def rrLoop (env : Env) (serverEntries : List serverEntry) :
    Nat → RRState → RRState
  | 0, st => st
  | fuel + 1, st =>
    if st.tickets.isEmpty then st
    else rrLoop env serverEntries fuel (rrPass env serverEntries st)

/-- Embedding of processUnallocatedServerGroup (the RoundRobin policy): run
the round-robin loop, then assign each allocated ticket its accumulated
replica count with cost and value scaled by the granted fraction. -/
def processUnallocatedServerGroup (env : Env) (serverEntries : List serverEntry)
    (st : (String → Int) × (String → Option Allocation)) :
    (String → Int) × (String → Option Allocation) :=
  let st0 : RRState := { tickets := mkTickets env serverEntries, allocated := [],
                         available := st.1 }
  let st1 := rrLoop env serverEntries (rrFuel env serverEntries st.1) st0
  (st1.available,
   st1.allocated.foldl
     (fun assign p =>
       match p.2.finalAlloc with
       | none => assign
       | some alloc =>
         let factor := (p.2.numReplicas : ℚ) / (alloc.numReplicas : ℚ)
         let alloc1 := { alloc with
           cost := alloc.cost * factor,
           value := alloc.value * factor,
           numReplicas := p.2.numReplicas }
         upd assign p.1 (some alloc1))
     st.2)

/-- Priority runs of the unallocated list, with fuel (the list length always
suffices): maximal runs of equal priority in the given order. -/
def groupRunsF : Nat → List serverEntry → List (List serverEntry)
  | 0, _ => []
  | _, [] => []
  | fuel + 1, e :: rest =>
    (e :: rest.takeWhile (fun x => decide (x.priority = e.priority))) ::
      groupRunsF fuel (rest.dropWhile (fun x => decide (x.priority = e.priority)))

/-- Embedding of the grouping loop of processGroupsOfUnallocatedServers. -/
def groupRuns (l : List serverEntry) : List (List serverEntry) :=
  groupRunsF l.length l

/-- Embedding of processGroupsOfUnallocatedServers (the PriorityRoundRobin
policy): one equal-priority run at a time, round robin within the run. -/
def processGroupsOfUnallocatedServers (env : Env) (serverEntries : List serverEntry)
    (st : (String → Int) × (String → Option Allocation)) :
    (String → Int) × (String → Option Allocation) :=
  (groupRuns serverEntries).foldl
    (fun st g => processUnallocatedServerGroup env g st) st

/-- Modelled from the spec: the saturation policy enum of the config package
(not among the provided sources). -/
inductive SaturationPolicy where
  | priorityExhaustive
  | priorityRoundRobin
  | roundRobin
  | none
deriving DecidableEq, Repr

/-- Embedding of Solver.SolveGreedy: copy the capacities, clear every server
allocation while building the entries, sort them, run the greedy loop, then
apply the configured saturation policy to the unallocated entries.  Returns
the final available counts and the desired-allocation assignment. -/
def solveGreedy (env : Env) (policy : SaturationPolicy)
    (assign : String → Option Allocation) :
    (String → Int) × (String → Option Allocation) :=
  let built := buildEntries env.servers assign
  let entries := built.2.mergeSort (fun a b => decide (orderFunc a b ≤ 0))
  let res := greedyLoop env (loopFuel entries) entries env.capacities built.1 []
  match policy with
  | .priorityExhaustive => processUnallocatedServers env res.2.2 (res.1, res.2.1)
  | .priorityRoundRobin => processGroupsOfUnallocatedServers env res.2.2 (res.1, res.2.1)
  | .roundRobin => processUnallocatedServerGroup env res.2.2 (res.1, res.2.1)
  | .none => (res.1, res.2.1)

/-! Helper lemmas for the solver invariants. -/

/-- A positive truncated quotient forces a nonnegative dividend. -/
theorem nonneg_of_tdiv_pos {a u : Int} (hu : 0 < u) (h : 0 < Int.tdiv a u) : 0 ≤ a := by
  by_contra hneg
  push_neg at hneg
  have h2 : 0 ≤ Int.tdiv (-a) u := Int.tdiv_nonneg (by omega) (le_of_lt hu)
  have h3 : Int.tdiv (-a) u = -(Int.tdiv a u) := Int.neg_tdiv a u
  omega

/-- Truncated division of a nonnegative dividend undershoots it after
multiplying back. -/
theorem tdiv_mul_le_self {a u : Int} (ha : 0 ≤ a) (hu : 0 < u) :
    Int.tdiv a u * u ≤ a := by
  rw [Int.tdiv_eq_ediv ha (le_of_lt hu)]
  exact Int.ediv_mul_le a (ne_of_gt hu)

/-- A truncated quotient of at least one forces the dividend to cover the
divisor. -/
theorem le_of_one_le_tdiv {a u : Int} (hu : 0 < u) (h : 1 ≤ Int.tdiv a u) : u ≤ a := by
  have ha : 0 ≤ a := nonneg_of_tdiv_pos hu (by omega)
  rw [Int.tdiv_eq_ediv ha (le_of_lt hu)] at h
  have h2 := (Int.le_ediv_iff_mul_le hu).mp h
  linarith

/-- A successful association-list lookup is a membership. -/
theorem alLookup_mem {β : Type} :
    ∀ (l : List (String × β)) (k : String) (v : β),
      alLookup l k = some v → (k, v) ∈ l := by
  intro l
  induction l with
  | nil => intro k v h; exact Option.noConfusion h
  | cons p t ih =>
    intro k v h
    unfold alLookup at h
    by_cases he : p.1 = k
    · rw [if_pos he] at h
      injection h with h
      rw [← he, ← h]
      exact List.mem_cons_self p t
    · rw [if_neg he] at h
      exact List.mem_cons_of_mem p (ih k v h)

/-- Nonnegative unit coefficients of an environment: every accelerator has
nonnegative multiplicity and every performance record a nonnegative
accelerator count (data-model invariants of the spec, section 3). -/
def EnvUnitsNonneg (env : Env) : Prop :=
  (∀ p ∈ env.accelerators, 0 ≤ p.2.multiplicity) ∧
  (∀ p ∈ env.models, ∀ q ∈ p.2.perfData, 0 ≤ q.2.accCount)

/-- The multiplicity of a looked-up accelerator is nonnegative. -/
theorem multiplicity_nonneg {env : Env} (hm : EnvUnitsNonneg env) {g : String}
    {acc : Accelerator} (h : env.getAccelerator g = some acc) :
    0 ≤ acc.multiplicity :=
  hm.1 (g, acc) (alLookup_mem env.accelerators g acc h)

/-- The per-replica instance count of a looked-up model is nonnegative. -/
theorem numInstances_nonneg {env : Env} (hm : EnvUnitsNonneg env) {name : String}
    {model : Model} (h : env.getModel name = some model) (g : String) :
    0 ≤ model.numInstances g := by
  unfold Model.numInstances
  rcases hp : model.perf g with _ | p
  · exact le_refl 0
  · exact hm.2 (name, model) (alLookup_mem env.models name model h) (g, p)
      (alLookup_mem model.perfData g p hp)

/-- Membership through a reinsertion: the element is the inserted entry or was
already in the list. -/
theorem mem_insertOrdered {l : List serverEntry} {e x : serverEntry}
    (hx : x ∈ insertOrdered l e) : x = e ∨ x ∈ l := by
  unfold insertOrdered at hx
  rcases List.mem_append.mp hx with h | h
  · exact Or.inr ((List.takeWhile_sublist _).subset h)
  · rcases List.mem_cons.mp h with h | h
    · exact Or.inl h
    · exact Or.inr ((List.dropWhile_sublist _).subset h)

/-- Invariants of the greedy loop: the available counts never increase and
stay nonnegative (every deduction is guarded and of nonnegative size), every
entry reaching the unallocated list carries the name and candidate list of an
input entry, and every assignment written is a candidate of an input entry of
that name. -/
theorem greedyLoop_inv (env : Env) (hm : EnvUnitsNonneg env) :
    ∀ (fuel : Nat) (entries : List serverEntry) (available : String → Int)
      (assign : String → Option Allocation) (unalloc : List serverEntry),
      (∀ e ∈ entries, ∀ a ∈ e.allocations, 0 ≤ a.numReplicas) →
      (∀ t, (greedyLoop env fuel entries available assign unalloc).1 t ≤ available t ∧
        (0 ≤ available t → 0 ≤ (greedyLoop env fuel entries available assign unalloc).1 t)) ∧
      (∀ e ∈ (greedyLoop env fuel entries available assign unalloc).2.2,
        e ∈ unalloc ∨ ∃ e0 ∈ entries, e0.serverName = e.serverName ∧
          e.allocations = e0.allocations) ∧
      (∀ s a, (greedyLoop env fuel entries available assign unalloc).2.1 s = some a →
        assign s = some a ∨ ∃ e ∈ entries, e.serverName = s ∧ a ∈ e.allocations) := by
  intro fuel
  induction fuel with
  | zero =>
    intro entries available assign unalloc _
    exact ⟨fun t => ⟨le_refl _, fun h => h⟩, fun e he => Or.inl he, fun s a ha => Or.inl ha⟩
  | succ fuel ih =>
    intro entries available assign unalloc hent
    cases entries with
    | nil =>
      exact ⟨fun t => ⟨le_refl _, fun h => h⟩, fun e he => Or.inl he, fun s a ha => Or.inl ha⟩
    | cons top rest =>
      have hrest : ∀ e ∈ rest, ∀ a ∈ e.allocations, 0 ≤ a.numReplicas :=
        fun e he => hent e (List.mem_cons_of_mem top he)
      have liftRest : ∀ (res : (String → Int) × (String → Option Allocation) × List serverEntry),
          ((∀ t, res.1 t ≤ available t ∧ (0 ≤ available t → 0 ≤ res.1 t)) ∧
           (∀ e ∈ res.2.2, e ∈ unalloc ∨ ∃ e0 ∈ rest, e0.serverName = e.serverName ∧
             e.allocations = e0.allocations) ∧
           (∀ s a, res.2.1 s = some a → assign s = some a ∨
             ∃ e ∈ rest, e.serverName = s ∧ a ∈ e.allocations)) →
          ((∀ t, res.1 t ≤ available t ∧ (0 ≤ available t → 0 ≤ res.1 t)) ∧
           (∀ e ∈ res.2.2, e ∈ unalloc ∨ ∃ e0 ∈ top :: rest, e0.serverName = e.serverName ∧
             e.allocations = e0.allocations) ∧
           (∀ s a, res.2.1 s = some a → assign s = some a ∨
             ∃ e ∈ top :: rest, e.serverName = s ∧ a ∈ e.allocations)) := by
        rintro res ⟨h1, h2, h3⟩
        refine ⟨h1, ?_, ?_⟩
        · intro e heu
          rcases h2 e heu with h | ⟨e0, he0, hh⟩
          · exact Or.inl h
          · exact Or.inr ⟨e0, List.mem_cons_of_mem top he0, hh⟩
        · intro s a ha
          rcases h3 s a ha with h | ⟨e0, he0, hh⟩
          · exact Or.inl h
          · exact Or.inr ⟨e0, List.mem_cons_of_mem top he0, hh⟩
      by_cases he : top.allocations = []
      · have hstep : greedyLoop env (fuel + 1) (top :: rest) available assign unalloc =
            greedyLoop env fuel rest available assign unalloc := by
          simp only [greedyLoop, if_pos he]
        rw [hstep]
        exact liftRest _ (ih rest available assign unalloc hrest)
      rcases hsv : env.getServer top.serverName with _ | server
      · have hstep : greedyLoop env (fuel + 1) (top :: rest) available assign unalloc =
            greedyLoop env fuel rest available assign unalloc := by
          simp only [greedyLoop, if_neg he, hsv]
        rw [hstep]
        exact liftRest _ (ih rest available assign unalloc hrest)
      rcases hmd : env.getModel server.modelName with _ | model
      · have hstep : greedyLoop env (fuel + 1) (top :: rest) available assign unalloc =
            greedyLoop env fuel rest available assign unalloc := by
          simp only [greedyLoop, if_neg he, hsv, hmd]
        rw [hstep]
        exact liftRest _ (ih rest available assign unalloc hrest)
      rcases hga : top.allocations.get? top.curIndex with _ | alloc
      · have hstep : greedyLoop env (fuel + 1) (top :: rest) available assign unalloc =
            greedyLoop env fuel rest available assign unalloc := by
          simp only [greedyLoop, if_neg he, hsv, hmd, hga]
        rw [hstep]
        exact liftRest _ (ih rest available assign unalloc hrest)
      rcases hac : env.getAccelerator alloc.accelerator with _ | acc
      · have hstep : greedyLoop env (fuel + 1) (top :: rest) available assign unalloc =
            greedyLoop env fuel rest available assign unalloc := by
          simp only [greedyLoop, if_neg he, hsv, hmd, hga, hac]
        rw [hstep]
        exact liftRest _ (ih rest available assign unalloc hrest)
      have hcount : 0 ≤ alloc.numReplicas * (model.numInstances alloc.accelerator * acc.multiplicity) :=
        mul_nonneg (hent top (List.mem_cons_self top rest) alloc (List.get?_mem hga))
          (mul_nonneg (numInstances_nonneg hm hmd alloc.accelerator) (multiplicity_nonneg hm hac))
      by_cases hcap : alloc.numReplicas * (model.numInstances alloc.accelerator * acc.multiplicity) ≤
          available acc.accType
      · have hstep : greedyLoop env (fuel + 1) (top :: rest) available assign unalloc =
            greedyLoop env fuel rest
              (upd available acc.accType (available acc.accType -
                alloc.numReplicas * (model.numInstances alloc.accelerator * acc.multiplicity)))
              (upd assign top.serverName (some alloc)) unalloc := by
          simp only [greedyLoop, if_neg he, hsv, hmd, hga, hac, if_pos hcap]
        rw [hstep]
        obtain ⟨ih1, ih2, ih3⟩ := ih rest
          (upd available acc.accType (available acc.accType -
            alloc.numReplicas * (model.numInstances alloc.accelerator * acc.multiplicity)))
          (upd assign top.serverName (some alloc)) unalloc hrest
        refine ⟨?_, ?_, ?_⟩
        · intro t
          have hup : upd available acc.accType (available acc.accType -
              alloc.numReplicas * (model.numInstances alloc.accelerator * acc.multiplicity)) t ≤
                available t ∧
              (0 ≤ available t → 0 ≤ upd available acc.accType (available acc.accType -
                alloc.numReplicas * (model.numInstances alloc.accelerator * acc.multiplicity)) t) := by
            unfold upd
            by_cases ht : t = acc.accType
            · rw [if_pos ht, ht]
              exact ⟨by linarith, fun _ => by linarith⟩
            · rw [if_neg ht]
              exact ⟨le_refl _, fun h => h⟩
          exact ⟨le_trans (ih1 t).1 hup.1, fun h => (ih1 t).2 (hup.2 h)⟩
        · intro e heu
          rcases ih2 e heu with h | ⟨e0, he0, hh⟩
          · exact Or.inl h
          · exact Or.inr ⟨e0, List.mem_cons_of_mem top he0, hh⟩
        · intro s a ha
          rcases ih3 s a ha with h | ⟨e0, he0, hh⟩
          · unfold upd at h
            by_cases hs : s = top.serverName
            · rw [if_pos hs] at h
              injection h with h
              exact Or.inr ⟨top, List.mem_cons_self top rest, hs.symm, h ▸ List.get?_mem hga⟩
            · rw [if_neg hs] at h
              exact Or.inl h
          · exact Or.inr ⟨e0, List.mem_cons_of_mem top he0, hh⟩
      · by_cases hlt : top.curIndex + 1 + 1 < top.allocations.length
        · have hstep : greedyLoop env (fuel + 1) (top :: rest) available assign unalloc =
              greedyLoop env fuel
                (insertOrdered rest { top with
                  curIndex := top.curIndex + 1,
                  delta := ((top.allocations.get? (top.curIndex + 1 + 1)).map
                      Allocation.value).getD 0 -
                    ((top.allocations.get? (top.curIndex + 1)).map Allocation.value).getD 0 })
                available assign unalloc := by
            simp only [greedyLoop, if_neg he, hsv, hmd, hga, hac, if_neg hcap, if_pos hlt]
          rw [hstep]
          have hent2 : ∀ e ∈ insertOrdered rest { top with
              curIndex := top.curIndex + 1,
              delta := ((top.allocations.get? (top.curIndex + 1 + 1)).map
                  Allocation.value).getD 0 -
                ((top.allocations.get? (top.curIndex + 1)).map Allocation.value).getD 0 },
              ∀ a ∈ e.allocations, 0 ≤ a.numReplicas := by
            intro e hee
            rcases mem_insertOrdered hee with h | h
            · rw [h]
              exact hent top (List.mem_cons_self top rest)
            · exact hrest e h
          obtain ⟨ih1, ih2, ih3⟩ := ih _ available assign unalloc hent2
          refine ⟨ih1, ?_, ?_⟩
          · intro e heu
            rcases ih2 e heu with h | ⟨e0, he0, hh⟩
            · exact Or.inl h
            · rcases mem_insertOrdered he0 with h2 | h2
              · refine Or.inr ⟨top, List.mem_cons_self top rest, ?_, ?_⟩
                · rw [← hh.1, h2]
                · rw [hh.2, h2]
              · exact Or.inr ⟨e0, List.mem_cons_of_mem top h2, hh⟩
          · intro s a ha
            rcases ih3 s a ha with h | ⟨e0, he0, hh⟩
            · exact Or.inl h
            · rcases mem_insertOrdered he0 with h2 | h2
              · refine Or.inr ⟨top, List.mem_cons_self top rest, ?_, ?_⟩
                · rw [← hh.1, h2]
                · rw [h2] at hh
                  exact hh.2
              · exact Or.inr ⟨e0, List.mem_cons_of_mem top h2, hh⟩
        · by_cases heq : top.curIndex + 1 = top.allocations.length
          · have hstep : greedyLoop env (fuel + 1) (top :: rest) available assign unalloc =
                greedyLoop env fuel rest available assign
                  (unalloc ++ [{ top with curIndex := top.curIndex + 1 }]) := by
              simp only [greedyLoop, if_neg he, hsv, hmd, hga, hac, if_neg hcap, if_neg hlt,
                if_pos heq]
            rw [hstep]
            obtain ⟨ih1, ih2, ih3⟩ := ih rest available assign
              (unalloc ++ [{ top with curIndex := top.curIndex + 1 }]) hrest
            refine ⟨ih1, ?_, ?_⟩
            · intro e heu
              rcases ih2 e heu with h | ⟨e0, he0, hh⟩
              · rcases List.mem_append.mp h with h2 | h2
                · exact Or.inl h2
                · rcases List.mem_singleton.mp h2 with h3
                  refine Or.inr ⟨top, List.mem_cons_self top rest, ?_, ?_⟩
                  · rw [h3]
                  · rw [h3]
              · exact Or.inr ⟨e0, List.mem_cons_of_mem top he0, hh⟩
            · intro s a ha
              rcases ih3 s a ha with h | ⟨e0, he0, hh⟩
              · exact Or.inl h
              · exact Or.inr ⟨e0, List.mem_cons_of_mem top he0, hh⟩
          · have hstep : greedyLoop env (fuel + 1) (top :: rest) available assign unalloc =
                greedyLoop env fuel
                  (insertOrdered rest { top with
                    curIndex := top.curIndex + 1,
                    delta := maxFloat32 })
                  available assign unalloc := by
              simp only [greedyLoop, if_neg he, hsv, hmd, hga, hac, if_neg hcap, if_neg hlt,
                if_neg heq]
            rw [hstep]
            have hent2 : ∀ e ∈ insertOrdered rest { top with
                curIndex := top.curIndex + 1,
                delta := maxFloat32 }, ∀ a ∈ e.allocations, 0 ≤ a.numReplicas := by
              intro e hee
              rcases mem_insertOrdered hee with h | h
              · rw [h]
                exact hent top (List.mem_cons_self top rest)
              · exact hrest e h
            obtain ⟨ih1, ih2, ih3⟩ := ih _ available assign unalloc hent2
            refine ⟨ih1, ?_, ?_⟩
            · intro e heu
              rcases ih2 e heu with h | ⟨e0, he0, hh⟩
              · exact Or.inl h
              · rcases mem_insertOrdered he0 with h2 | h2
                · refine Or.inr ⟨top, List.mem_cons_self top rest, ?_, ?_⟩
                  · rw [← hh.1, h2]
                  · rw [hh.2, h2]
                · exact Or.inr ⟨e0, List.mem_cons_of_mem top h2, hh⟩
            · intro s a ha
              rcases ih3 s a ha with h | ⟨e0, he0, hh⟩
              · exact Or.inl h
              · rcases mem_insertOrdered he0 with h2 | h2
                · refine Or.inr ⟨top, List.mem_cons_self top rest, ?_, ?_⟩
                  · rw [← hh.1, h2]
                  · rw [h2] at hh
                    exact hh.2
                · exact Or.inr ⟨e0, List.mem_cons_of_mem top h2, hh⟩

/-- A guarded write into a capacity map keeps every entry bounded by its old
value and nonnegative. -/
theorem upd_bound {f : String → Int} {k : String} {v : Int} (hv : v ≤ f k)
    (hnn : 0 ≤ v) : ∀ t, upd f k v t ≤ f t ∧ (0 ≤ f t → 0 ≤ upd f k v t) := by
  intro t
  unfold upd
  by_cases ht : t = k
  · rw [if_pos ht, ht]
    exact ⟨hv, fun _ => hnn⟩
  · rw [if_neg ht]
    exact ⟨le_refl _, fun h => h⟩

/-- The candidate scan of the exhaustive saturation policy never increases an
available count and keeps it nonnegative: each grant is guarded by the
integer division of the available count. -/
theorem pusScan_available (env : Env) (serverName : String) :
    ∀ (allocs : List Allocation) (st : (String → Int) × (String → Option Allocation))
      (t : String),
      (pusScan env serverName allocs st).1 t ≤ st.1 t ∧
        (0 ≤ st.1 t → 0 ≤ (pusScan env serverName allocs st).1 t) := by
  intro allocs
  induction allocs with
  | nil => intro st t; exact ⟨le_refl _, fun h => h⟩
  | cons alloc rest ih =>
    intro st t
    rcases hsv : env.getServer serverName with _ | server
    · have hstep : pusScan env serverName (alloc :: rest) st = st := by
        simp only [pusScan, hsv]
      rw [hstep]
      exact ⟨le_refl _, fun h => h⟩
    rcases hmd : env.getModel server.modelName with _ | model
    · have hstep : pusScan env serverName (alloc :: rest) st =
          pusScan env serverName rest st := by
        simp only [pusScan, hsv, hmd]
      rw [hstep]
      exact ih st t
    rcases hac : env.getAccelerator alloc.accelerator with _ | acc
    · have hstep : pusScan env serverName (alloc :: rest) st =
          pusScan env serverName rest st := by
        simp only [pusScan, hsv, hmd, hac]
      rw [hstep]
      exact ih st t
    by_cases hu : 0 < model.numInstances alloc.accelerator * acc.multiplicity
    · by_cases hmr : 0 < min (Int.tdiv (st.1 acc.accType)
          (model.numInstances alloc.accelerator * acc.multiplicity)) alloc.numReplicas
      · have hstep : pusScan env serverName (alloc :: rest) st =
            (upd st.1 acc.accType (st.1 acc.accType -
              min (Int.tdiv (st.1 acc.accType)
                (model.numInstances alloc.accelerator * acc.multiplicity)) alloc.numReplicas *
              (model.numInstances alloc.accelerator * acc.multiplicity)),
             upd st.2 serverName (some { alloc with
               cost := alloc.cost * (((min (Int.tdiv (st.1 acc.accType)
                 (model.numInstances alloc.accelerator * acc.multiplicity))
                 alloc.numReplicas : Int) : ℚ) / ((alloc.numReplicas : Int) : ℚ)),
               value := alloc.value * (((min (Int.tdiv (st.1 acc.accType)
                 (model.numInstances alloc.accelerator * acc.multiplicity))
                 alloc.numReplicas : Int) : ℚ) / ((alloc.numReplicas : Int) : ℚ)),
               numReplicas := min (Int.tdiv (st.1 acc.accType)
                 (model.numInstances alloc.accelerator * acc.multiplicity))
                 alloc.numReplicas })) := by
          simp only [pusScan, hsv, hmd, hac, if_pos hu, if_pos hmr]
        rw [hstep]
        have htd : 0 < Int.tdiv (st.1 acc.accType)
            (model.numInstances alloc.accelerator * acc.multiplicity) :=
          lt_of_lt_of_le hmr (min_le_left _ _)
        have hnn : 0 ≤ st.1 acc.accType := nonneg_of_tdiv_pos hu htd
        have hded : min (Int.tdiv (st.1 acc.accType)
            (model.numInstances alloc.accelerator * acc.multiplicity)) alloc.numReplicas *
            (model.numInstances alloc.accelerator * acc.multiplicity) ≤ st.1 acc.accType := by
          calc min (Int.tdiv (st.1 acc.accType)
                (model.numInstances alloc.accelerator * acc.multiplicity)) alloc.numReplicas *
                (model.numInstances alloc.accelerator * acc.multiplicity)
              ≤ Int.tdiv (st.1 acc.accType)
                  (model.numInstances alloc.accelerator * acc.multiplicity) *
                  (model.numInstances alloc.accelerator * acc.multiplicity) :=
                mul_le_mul_of_nonneg_right (min_le_left _ _) (le_of_lt hu)
            _ ≤ st.1 acc.accType := tdiv_mul_le_self hnn hu
        have hpos : 0 ≤ min (Int.tdiv (st.1 acc.accType)
            (model.numInstances alloc.accelerator * acc.multiplicity)) alloc.numReplicas *
            (model.numInstances alloc.accelerator * acc.multiplicity) :=
          mul_nonneg (le_of_lt hmr) (le_of_lt hu)
        exact upd_bound (by linarith) (by linarith) t
      · have hstep : pusScan env serverName (alloc :: rest) st =
            pusScan env serverName rest st := by
          simp only [pusScan, hsv, hmd, hac, if_pos hu, if_neg hmr]
        rw [hstep]
        exact ih st t
    · have hstep : pusScan env serverName (alloc :: rest) st =
          pusScan env serverName rest st := by
        simp only [pusScan, hsv, hmd, hac, if_neg hu]
      rw [hstep]
      exact ih st t

/-- The exhaustive saturation policy never increases an available count and
keeps it nonnegative. -/
theorem processUnallocatedServers_available (env : Env) :
    ∀ (entries : List serverEntry)
      (st : (String → Int) × (String → Option Allocation)) (t : String),
      (processUnallocatedServers env entries st).1 t ≤ st.1 t ∧
        (0 ≤ st.1 t → 0 ≤ (processUnallocatedServers env entries st).1 t) := by
  intro entries
  induction entries with
  | nil => intro st t; exact ⟨le_refl _, fun h => h⟩
  | cons e rest ih =>
    intro st t
    have hstep : processUnallocatedServers env (e :: rest) st =
        processUnallocatedServers env rest (pusScan env e.serverName e.allocations st) := by
      simp only [processUnallocatedServers, List.foldl_cons]
    rw [hstep]
    obtain ⟨h1, h2⟩ := ih (pusScan env e.serverName e.allocations st) t
    obtain ⟨g1, g2⟩ := pusScan_available env e.serverName e.allocations st t
    exact ⟨le_trans h1 g1, fun h => h2 (g2 h)⟩

/-- Erasure from an association list only drops entries. -/
theorem mem_tkErase {β : Type} {l : List (String × β)} {k : String}
    {p : String × β} (hp : p ∈ tkErase l k) : p ∈ l :=
  (List.mem_filter.mp hp).1

/-- An element of an updated association list is an original element or the
written pair. -/
theorem mem_tkUpdate {β : Type} {l : List (String × β)} {k : String} {v : β}
    {p : String × β} (hp : p ∈ tkUpdate l k v) : p ∈ l ∨ p = (k, v) := by
  unfold tkUpdate at hp
  obtain ⟨q, hq, hpq⟩ := List.mem_map.mp hp
  by_cases he : q.1 = k
  · rw [if_pos he] at hpq
    exact Or.inr hpq.symm
  · rw [if_neg he] at hpq
    rw [← hpq]
    exact Or.inl hq

/-- A successful activation scan returns positive units per replica, bounded
by the available count of the selected type, and a candidate of the scanned
list. -/
theorem rrActivate_some (env : Env) (model : Model) (available : String → Int) :
    ∀ (allocs : List Allocation) (tp : String) (u : Int) (alloc : Allocation),
      rrActivate env model available allocs = some (tp, u, alloc) →
      0 < u ∧ u ≤ available tp ∧ alloc ∈ allocs := by
  intro allocs
  induction allocs with
  | nil => intro tp u alloc h; exact Option.noConfusion h
  | cons a rest ih =>
    intro tp u alloc h
    rcases hac : env.getAccelerator a.accelerator with _ | acc
    · simp only [rrActivate, hac] at h
      obtain ⟨h1, h2, h3⟩ := ih tp u alloc h
      exact ⟨h1, h2, List.mem_cons_of_mem a h3⟩
    · simp only [rrActivate, hac] at h
      by_cases hcond : 0 < model.numInstances a.accelerator * acc.multiplicity ∧
          model.numInstances a.accelerator * acc.multiplicity ≤ available acc.accType
      · rw [if_pos hcond] at h
        simp only [Option.some.injEq, Prod.mk.injEq] at h
        obtain ⟨h1, h2, h3⟩ := h
        subst h1
        subst h2
        subst h3
        exact ⟨hcond.1, hcond.2, List.mem_cons_self a rest⟩
      · rw [if_neg hcond] at h
        obtain ⟨h1, h2, h3⟩ := ih tp u alloc h
        exact ⟨h1, h2, List.mem_cons_of_mem a h3⟩

/-- An element of a map write is an original element or the written pair. -/
theorem mem_tkInsert {β : Type} {l : List (String × β)} {k : String} {v : β}
    {p : String × β} (hp : p ∈ tkInsert l k v) : p ∈ l ∨ p = (k, v) := by
  unfold tkInsert at hp
  by_cases he : (alLookup l k).isSome
  · rw [if_pos he] at hp
    exact mem_tkUpdate hp
  · rw [if_neg he] at hp
    rcases List.mem_append.mp hp with h | h
    · exact Or.inl h
    · exact Or.inr (List.mem_singleton.mp h)

/-- Every active ticket of a list carries positive units per replica. -/
def ticketsUnitsPos (tks : List (String × serverAllocationTicket)) : Prop :=
  ∀ p ∈ tks, p.2.active = true → 0 < p.2.unitsPerReplica

/-- One round-robin visit preserves the active-ticket units invariant, never
increases an available count and keeps it nonnegative: a grant is guarded by
the integer division of the available count by the positive units per
replica. -/
theorem rrStep_inv (env : Env) (e : serverEntry) (st : RRState)
    (hinv : ticketsUnitsPos st.tickets) :
    ticketsUnitsPos (rrStep env st e).tickets ∧
    ∀ t, (rrStep env st e).available t ≤ st.available t ∧
      (0 ≤ st.available t → 0 ≤ (rrStep env st e).available t) := by
  have herase : ticketsUnitsPos (tkErase st.tickets e.serverName) :=
    fun p hp => hinv p (mem_tkErase hp)
  rcases hlk : alLookup st.tickets e.serverName with _ | ticket
  · have hstep : rrStep env st e = st := by
      simp only [rrStep, hlk]
    rw [hstep]
    exact ⟨hinv, fun t => ⟨le_refl _, fun h => h⟩⟩
  have hmem := alLookup_mem st.tickets e.serverName ticket hlk
  rcases hbt : ticket.active with _ | _
  · rcases hra : rrActivate env ticket.model st.available e.allocations with _ | tri
    · have hstep : rrStep env st e = { st with tickets := tkErase st.tickets e.serverName } := by
        simp only [rrStep, hlk, hbt, hra, Bool.false_eq_true, if_false]
      rw [hstep]
      exact ⟨herase, fun t => ⟨le_refl _, fun h => h⟩⟩
    · obtain ⟨tt, u, alloc⟩ := tri
      obtain ⟨hu, hle, _⟩ :=
        rrActivate_some env ticket.model st.available e.allocations tt u alloc hra
      by_cases hg : 0 < min (Int.tdiv (st.available tt) u) alloc.numReplicas
      · have hstep : rrStep env st e =
            { tickets := tkUpdate st.tickets e.serverName { ticket with
                active := true, accType := tt, unitsPerReplica := u,
                finalAlloc := some alloc, numReplicas := ticket.numReplicas + 1 },
              allocated := tkInsert st.allocated e.serverName { ticket with
                active := true, accType := tt, unitsPerReplica := u,
                finalAlloc := some alloc, numReplicas := ticket.numReplicas + 1 },
              available := upd st.available tt (st.available tt - u) } := by
          simp only [rrStep, hlk, hbt, hra, Bool.false_eq_true, if_false, if_pos hg]
        rw [hstep]
        have h0 : 0 < Int.tdiv (st.available tt) u := lt_of_lt_of_le hg (min_le_left _ _)
        have hcov : u ≤ st.available tt := le_of_one_le_tdiv hu (by omega)
        refine ⟨?_, fun t => upd_bound (by linarith) (by linarith) t⟩
        intro p hp
        rcases mem_tkUpdate hp with h | h
        · exact hinv p h
        · intro _
          rw [h]
          exact hu
      · have hstep : rrStep env st e =
            { st with tickets := tkErase st.tickets e.serverName } := by
          simp only [rrStep, hlk, hbt, hra, Bool.false_eq_true, if_false, if_neg hg]
        rw [hstep]
        exact ⟨herase, fun t => ⟨le_refl _, fun h => h⟩⟩
  · have hupos : 0 < ticket.unitsPerReplica := hinv (e.serverName, ticket) hmem hbt
    rcases hfa : ticket.finalAlloc with _ | alloc
    · have hgf : ¬(0 < min (Int.tdiv (st.available ticket.accType)
          ticket.unitsPerReplica) (0 : Int)) :=
        not_lt.mpr (min_le_right _ _)
      have hstep : rrStep env st e =
          { st with tickets := tkErase st.tickets e.serverName } := by
        simp only [rrStep, hlk, hbt, hfa, if_true, if_neg hgf]
      rw [hstep]
      exact ⟨herase, fun t => ⟨le_refl _, fun h => h⟩⟩
    · by_cases hg : 0 < min (Int.tdiv (st.available ticket.accType)
          ticket.unitsPerReplica) alloc.numReplicas
      · have hstep : rrStep env st e =
            { tickets := tkUpdate st.tickets e.serverName
                { ticket with numReplicas := ticket.numReplicas + 1 },
              allocated := tkInsert st.allocated e.serverName
                { ticket with numReplicas := ticket.numReplicas + 1 },
              available := upd st.available ticket.accType
                (st.available ticket.accType - ticket.unitsPerReplica) } := by
          simp only [rrStep, hlk, hbt, hfa, if_true, if_pos hg]
        rw [hstep]
        have h0 : 0 < Int.tdiv (st.available ticket.accType) ticket.unitsPerReplica :=
          lt_of_lt_of_le hg (min_le_left _ _)
        have hcov : ticket.unitsPerReplica ≤ st.available ticket.accType :=
          le_of_one_le_tdiv hupos (by omega)
        refine ⟨?_, fun t => upd_bound (by linarith) (by linarith) t⟩
        intro p hp
        rcases mem_tkUpdate hp with h | h
        · exact hinv p h
        · intro _
          rw [h]
          exact hupos
      · have hstep : rrStep env st e =
            { st with tickets := tkErase st.tickets e.serverName } := by
          simp only [rrStep, hlk, hbt, hfa, if_true, if_neg hg]
        rw [hstep]
        exact ⟨herase, fun t => ⟨le_refl _, fun h => h⟩⟩

/-- A full round-robin pass preserves the ticket invariant and the available
bounds. -/
theorem rrPass_inv (env : Env) :
    ∀ (entries : List serverEntry) (st : RRState), ticketsUnitsPos st.tickets →
      ticketsUnitsPos (rrPass env entries st).tickets ∧
      ∀ t, (rrPass env entries st).available t ≤ st.available t ∧
        (0 ≤ st.available t → 0 ≤ (rrPass env entries st).available t) := by
  intro entries
  induction entries with
  | nil => intro st h; exact ⟨h, fun t => ⟨le_refl _, fun x => x⟩⟩
  | cons e rest ih =>
    intro st h
    have hstep : rrPass env (e :: rest) st = rrPass env rest (rrStep env st e) := by
      simp only [rrPass, List.foldl_cons]
    rw [hstep]
    obtain ⟨h1, h2⟩ := rrStep_inv env e st h
    obtain ⟨g1, g2⟩ := ih (rrStep env st e) h1
    exact ⟨g1, fun t => ⟨le_trans (g2 t).1 (h2 t).1, fun hx => (g2 t).2 ((h2 t).2 hx)⟩⟩

/-- The round-robin loop preserves the available bounds for any fuel. -/
theorem rrLoop_inv (env : Env) (entries : List serverEntry) :
    ∀ (fuel : Nat) (st : RRState), ticketsUnitsPos st.tickets →
      ∀ t, (rrLoop env entries fuel st).available t ≤ st.available t ∧
        (0 ≤ st.available t → 0 ≤ (rrLoop env entries fuel st).available t) := by
  intro fuel
  induction fuel with
  | zero => intro st _ t; exact ⟨le_refl _, fun x => x⟩
  | succ fuel ih =>
    intro st h t
    by_cases he : st.tickets.isEmpty
    · have hstep : rrLoop env entries (fuel + 1) st = st := by
        simp only [rrLoop, if_pos he]
      rw [hstep]
      exact ⟨le_refl _, fun x => x⟩
    · have hstep : rrLoop env entries (fuel + 1) st =
          rrLoop env entries fuel (rrPass env entries st) := by
        simp only [rrLoop, if_neg he]
      rw [hstep]
      obtain ⟨h1, h2⟩ := rrPass_inv env entries st h
      obtain ⟨g1, g2⟩ := ih (rrPass env entries st) h1 t
      exact ⟨le_trans g1 (h2 t).1, fun hx => g2 ((h2 t).2 hx)⟩

/-- The freshly created tickets of a group are all inactive. -/
theorem mkTickets_inactive (env : Env) (entries : List serverEntry) :
    ∀ p ∈ mkTickets env entries, p.2.active = false := by
  suffices h : ∀ (l : List serverEntry) (acc : List (String × serverAllocationTicket)),
      (∀ p ∈ acc, p.2.active = false) →
      ∀ p ∈ l.foldl (fun tks e =>
        match env.getServer e.serverName with
        | none => tks
        | some server =>
          match env.getModel server.modelName with
          | none => tks
          | some model =>
            tkInsert tks e.serverName
              { active := false, accType := "", unitsPerReplica := 0,
                numReplicas := 0, finalAlloc := none, model := model }) acc,
        p.2.active = false by
    intro p hp
    exact h entries [] (fun q hq => absurd hq (List.not_mem_nil q)) p hp
  intro l
  induction l with
  | nil => intro acc hacc p hp; exact hacc p hp
  | cons e rest ih =>
    intro acc hacc p hp
    rw [List.foldl_cons] at hp
    rcases hsv : env.getServer e.serverName with _ | server
    · simp only [hsv] at hp
      exact ih acc hacc p hp
    rcases hmd : env.getModel server.modelName with _ | model
    · simp only [hsv, hmd] at hp
      exact ih acc hacc p hp
    simp only [hsv, hmd] at hp
    refine ih _ ?_ p hp
    intro q hq
    rcases mem_tkInsert hq with h | h
    · exact hacc q h
    · rw [h]

/-- The round-robin saturation policy never increases an available count and
keeps it nonnegative. -/
theorem processUnallocatedServerGroup_available (env : Env)
    (entries : List serverEntry)
    (st : (String → Int) × (String → Option Allocation)) (t : String) :
    (processUnallocatedServerGroup env entries st).1 t ≤ st.1 t ∧
      (0 ≤ st.1 t → 0 ≤ (processUnallocatedServerGroup env entries st).1 t) := by
  have h0 : ticketsUnitsPos (mkTickets env entries) := by
    intro p hp ha
    rw [mkTickets_inactive env entries p hp] at ha
    exact absurd ha (by simp)
  exact rrLoop_inv env entries (rrFuel env entries st.1)
    { tickets := mkTickets env entries, allocated := [], available := st.1 } h0 t

/-- The grouped round-robin saturation policy never increases an available
count and keeps it nonnegative. -/
theorem processGroupsOfUnallocatedServers_available (env : Env)
    (entries : List serverEntry)
    (st : (String → Int) × (String → Option Allocation)) (t : String) :
    (processGroupsOfUnallocatedServers env entries st).1 t ≤ st.1 t ∧
      (0 ≤ st.1 t → 0 ≤ (processGroupsOfUnallocatedServers env entries st).1 t) := by
  suffices h : ∀ (gs : List (List serverEntry))
      (st : (String → Int) × (String → Option Allocation)) (t : String),
      ((gs.foldl (fun st g => processUnallocatedServerGroup env g st) st).1 t ≤ st.1 t ∧
        (0 ≤ st.1 t →
          0 ≤ (gs.foldl (fun st g => processUnallocatedServerGroup env g st) st).1 t)) by
    exact h (groupRuns entries) st t
  intro gs
  induction gs with
  | nil => intro st t; exact ⟨le_refl _, fun x => x⟩
  | cons g rest ih =>
    intro st t
    rw [List.foldl_cons]
    obtain ⟨h1, h2⟩ := ih (processUnallocatedServerGroup env g st) t
    obtain ⟨g1, g2⟩ := processUnallocatedServerGroup_available env g st t
    exact ⟨le_trans h1 g1, fun hx => h2 (g2 hx)⟩

/-- The name of a built entry is the server name it was built from. -/
theorem mkEntry_serverName (n : String) (sv : Server) :
    (mkEntry n sv).serverName = n := rfl

/-- The candidate list of a built entry is the sorted candidate list of its
server. -/
theorem mkEntry_allocations (n : String) (sv : Server) :
    (mkEntry n sv).allocations =
      sv.allAllocations.mergeSort (fun a b => decide (a.value ≤ b.value)) := rfl

/-- Every entry the first phase builds is the entry of a registry server. -/
theorem buildEntries_origin (servers : List (String × Server))
    (assign : String → Option Allocation) :
    ∀ e ∈ (buildEntries servers assign).2, ∃ p ∈ servers, e = mkEntry p.1 p.2 := by
  suffices h : ∀ (l : List (String × Server))
      (acc : (String → Option Allocation) × List serverEntry),
      ∀ e ∈ (l.foldl buildStep acc).2,
        e ∈ acc.2 ∨ ∃ p ∈ l, e = mkEntry p.1 p.2 by
    intro e he
    rcases h servers (assign, []) e he with h2 | h2
    · exact absurd h2 (List.not_mem_nil e)
    · exact h2
  intro l
  induction l with
  | nil => intro acc e he; exact Or.inl he
  | cons q rest ih =>
    intro acc e he
    rw [List.foldl_cons] at he
    rcases ih (buildStep acc q) e he with h2 | ⟨p, hp, hmk⟩
    · by_cases hq : q.2.allAllocations = []
      · have hstep : buildStep acc q = (upd acc.1 q.1 none, acc.2) := by
          simp only [buildStep, if_pos hq]
        rw [hstep] at h2
        exact Or.inl h2
      · have hstep : buildStep acc q = (upd acc.1 q.1 none, acc.2 ++ [mkEntry q.1 q.2]) := by
          simp only [buildStep, if_neg hq]
        rw [hstep] at h2
        rcases List.mem_append.mp h2 with h3 | h3
        · exact Or.inl h3
        · exact Or.inr ⟨q, List.mem_cons_self q rest, List.mem_singleton.mp h3⟩
    · exact Or.inr ⟨p, List.mem_cons_of_mem q hp, hmk⟩

/-- Every candidate of a built entry has nonnegative replicas when the
registry candidates do. -/
theorem buildEntries_allocs (servers : List (String × Server))
    (assign : String → Option Allocation)
    (hs : ∀ p ∈ servers, ∀ a ∈ p.2.allAllocations, 0 ≤ a.numReplicas) :
    ∀ e ∈ (buildEntries servers assign).2, ∀ a ∈ e.allocations, 0 ≤ a.numReplicas := by
  intro e he a ha
  obtain ⟨p, hp, hmk⟩ := buildEntries_origin servers assign e he
  rw [hmk, mkEntry_allocations] at ha
  exact hs p hp a (List.mem_mergeSort.mp ha)

/-- Two bindings of one key of a registry with distinct names agree. -/
theorem nodup_fst_eq {β : Type} :
    ∀ {l : List (String × β)}, (l.map Prod.fst).Nodup →
      ∀ {k : String} {v w : β}, (k, v) ∈ l → (k, w) ∈ l → v = w := by
  intro l
  induction l with
  | nil => intro _ k v w hv _; exact absurd hv (List.not_mem_nil _)
  | cons p t ih =>
    intro hnd k v w hv hw
    rw [List.map_cons, List.nodup_cons] at hnd
    rcases List.mem_cons.mp hv with h1 | h1
    · rcases List.mem_cons.mp hw with h2 | h2
      · rw [← h1] at h2
        exact (Prod.mk.injEq _ _ _ _ ▸ h2).2.symm
      · exfalso
        apply hnd.1
        have : k = p.1 := by rw [← h1]
        rw [← this]
        exact List.mem_map_of_mem Prod.fst h2
    · rcases List.mem_cons.mp hw with h2 | h2
      · exfalso
        apply hnd.1
        have : k = p.1 := by rw [← h2]
        rw [← this]
        exact List.mem_map_of_mem Prod.fst h1
      · exact ih hnd.2 h1 h2

/-- The first phase clears the assignment of every registry server. -/
theorem buildEntries_assign (servers : List (String × Server))
    (assign : String → Option Allocation) (s : String)
    (hs : s ∈ servers.map Prod.fst) :
    (buildEntries servers assign).1 s = none := by
  suffices h : ∀ (l : List (String × Server))
      (acc : (String → Option Allocation) × List serverEntry),
      (s ∈ l.map Prod.fst ∨ acc.1 s = none) → (l.foldl buildStep acc).1 s = none by
    exact h servers (assign, []) (Or.inl hs)
  intro l
  induction l with
  | nil =>
    intro acc h
    rcases h with h | h
    · exact absurd h (List.not_mem_nil s)
    · exact h
  | cons q rest ih =>
    intro acc h
    rw [List.foldl_cons]
    have h1 : (buildStep acc q).1 = upd acc.1 q.1 none := by
      unfold buildStep
      by_cases hq : q.2.allAllocations = []
      · rw [if_pos hq]
      · rw [if_neg hq]
    rcases h with h | h
    · rw [List.map_cons] at h
      rcases List.mem_cons.mp h with h2 | h2
      · refine ih (buildStep acc q) (Or.inr ?_)
        rw [h1]
        unfold upd
        rw [if_pos h2]
      · exact ih (buildStep acc q) (Or.inl h2)
    · refine ih (buildStep acc q) (Or.inr ?_)
      rw [h1]
      unfold upd
      by_cases hq : s = q.1
      · rw [if_pos hq]
      · rw [if_neg hq]
        exact h

/-- If a server starts unassigned and every candidate of every entry bearing
its name asks for more units than its accelerator type has available, the
greedy loop leaves the server unassigned: each failed entry only walks its
candidate list and ends on the unallocated list. -/
theorem greedyLoop_none (env : Env) (hm : EnvUnitsNonneg env) (s : String) :
    ∀ (fuel : Nat) (entries : List serverEntry) (available : String → Int)
      (assign : String → Option Allocation) (unalloc : List serverEntry),
      (∀ e ∈ entries, ∀ a ∈ e.allocations, 0 ≤ a.numReplicas) →
      assign s = none →
      (∀ e ∈ entries, e.serverName = s → ∀ a ∈ e.allocations,
        ∀ server model acc, env.getServer s = some server →
          env.getModel server.modelName = some model →
          env.getAccelerator a.accelerator = some acc →
          available acc.accType <
            a.numReplicas * (model.numInstances a.accelerator * acc.multiplicity)) →
      (greedyLoop env fuel entries available assign unalloc).2.1 s = none := by
  intro fuel
  induction fuel with
  | zero => intro entries available assign unalloc _ hnone _; exact hnone
  | succ fuel ih =>
    intro entries available assign unalloc hent hnone hfail
    cases entries with
    | nil => exact hnone
    | cons top rest =>
      have hrest : ∀ e ∈ rest, ∀ a ∈ e.allocations, 0 ≤ a.numReplicas :=
        fun e he => hent e (List.mem_cons_of_mem top he)
      have hfrest : ∀ e ∈ rest, e.serverName = s → ∀ a ∈ e.allocations,
          ∀ server model acc, env.getServer s = some server →
            env.getModel server.modelName = some model →
            env.getAccelerator a.accelerator = some acc →
            available acc.accType <
              a.numReplicas * (model.numInstances a.accelerator * acc.multiplicity) :=
        fun e he => hfail e (List.mem_cons_of_mem top he)
      by_cases he : top.allocations = []
      · have hstep : greedyLoop env (fuel + 1) (top :: rest) available assign unalloc =
            greedyLoop env fuel rest available assign unalloc := by
          simp only [greedyLoop, if_pos he]
        rw [hstep]
        exact ih rest available assign unalloc hrest hnone hfrest
      rcases hsv : env.getServer top.serverName with _ | server
      · have hstep : greedyLoop env (fuel + 1) (top :: rest) available assign unalloc =
            greedyLoop env fuel rest available assign unalloc := by
          simp only [greedyLoop, if_neg he, hsv]
        rw [hstep]
        exact ih rest available assign unalloc hrest hnone hfrest
      rcases hmd : env.getModel server.modelName with _ | model
      · have hstep : greedyLoop env (fuel + 1) (top :: rest) available assign unalloc =
            greedyLoop env fuel rest available assign unalloc := by
          simp only [greedyLoop, if_neg he, hsv, hmd]
        rw [hstep]
        exact ih rest available assign unalloc hrest hnone hfrest
      rcases hga : top.allocations.get? top.curIndex with _ | alloc
      · have hstep : greedyLoop env (fuel + 1) (top :: rest) available assign unalloc =
            greedyLoop env fuel rest available assign unalloc := by
          simp only [greedyLoop, if_neg he, hsv, hmd, hga]
        rw [hstep]
        exact ih rest available assign unalloc hrest hnone hfrest
      rcases hac : env.getAccelerator alloc.accelerator with _ | acc
      · have hstep : greedyLoop env (fuel + 1) (top :: rest) available assign unalloc =
            greedyLoop env fuel rest available assign unalloc := by
          simp only [greedyLoop, if_neg he, hsv, hmd, hga, hac]
        rw [hstep]
        exact ih rest available assign unalloc hrest hnone hfrest
      have hcount : 0 ≤ alloc.numReplicas * (model.numInstances alloc.accelerator * acc.multiplicity) :=
        mul_nonneg (hent top (List.mem_cons_self top rest) alloc (List.get?_mem hga))
          (mul_nonneg (numInstances_nonneg hm hmd alloc.accelerator) (multiplicity_nonneg hm hac))
      by_cases hcap : alloc.numReplicas * (model.numInstances alloc.accelerator * acc.multiplicity) ≤
          available acc.accType
      · have hsne : top.serverName ≠ s := by
          intro hss
          have h2 := hfail top (List.mem_cons_self top rest) hss alloc (List.get?_mem hga)
            server model acc (hss ▸ hsv) hmd hac
          linarith
        have hstep : greedyLoop env (fuel + 1) (top :: rest) available assign unalloc =
            greedyLoop env fuel rest
              (upd available acc.accType (available acc.accType -
                alloc.numReplicas * (model.numInstances alloc.accelerator * acc.multiplicity)))
              (upd assign top.serverName (some alloc)) unalloc := by
          simp only [greedyLoop, if_neg he, hsv, hmd, hga, hac, if_pos hcap]
        rw [hstep]
        have hmono : ∀ t, upd available acc.accType (available acc.accType -
            alloc.numReplicas * (model.numInstances alloc.accelerator * acc.multiplicity)) t ≤
              available t := by
          intro t
          unfold upd
          by_cases ht : t = acc.accType
          · rw [if_pos ht, ht]
            linarith
          · rw [if_neg ht]
        have hnone2 : upd assign top.serverName (some alloc) s = none := by
          unfold upd
          rw [if_neg (fun h : s = top.serverName => hsne h.symm)]
          exact hnone
        exact ih rest _ _ unalloc hrest hnone2
          (fun e hee hes a ha server2 model2 acc2 h1 h2 h3 =>
            lt_of_le_of_lt (hmono acc2.accType)
              (hfrest e hee hes a ha server2 model2 acc2 h1 h2 h3))
      · by_cases hlt : top.curIndex + 1 + 1 < top.allocations.length
        · have hstep : greedyLoop env (fuel + 1) (top :: rest) available assign unalloc =
              greedyLoop env fuel
                (insertOrdered rest { top with
                  curIndex := top.curIndex + 1,
                  delta := ((top.allocations.get? (top.curIndex + 1 + 1)).map
                      Allocation.value).getD 0 -
                    ((top.allocations.get? (top.curIndex + 1)).map Allocation.value).getD 0 })
                available assign unalloc := by
            simp only [greedyLoop, if_neg he, hsv, hmd, hga, hac, if_neg hcap, if_pos hlt]
          rw [hstep]
          have hent2 : ∀ e ∈ insertOrdered rest { top with
              curIndex := top.curIndex + 1,
              delta := ((top.allocations.get? (top.curIndex + 1 + 1)).map
                  Allocation.value).getD 0 -
                ((top.allocations.get? (top.curIndex + 1)).map Allocation.value).getD 0 },
              ∀ a ∈ e.allocations, 0 ≤ a.numReplicas := by
            intro e hee
            rcases mem_insertOrdered hee with h | h
            · rw [h]
              exact hent top (List.mem_cons_self top rest)
            · exact hrest e h
          have hfail2 : ∀ e ∈ insertOrdered rest { top with
              curIndex := top.curIndex + 1,
              delta := ((top.allocations.get? (top.curIndex + 1 + 1)).map
                  Allocation.value).getD 0 -
                ((top.allocations.get? (top.curIndex + 1)).map Allocation.value).getD 0 },
              e.serverName = s → ∀ a ∈ e.allocations,
              ∀ server model acc, env.getServer s = some server →
                env.getModel server.modelName = some model →
                env.getAccelerator a.accelerator = some acc →
                available acc.accType <
                  a.numReplicas * (model.numInstances a.accelerator * acc.multiplicity) := by
            intro e hee
            rcases mem_insertOrdered hee with h | h
            · rw [h]
              exact hfail top (List.mem_cons_self top rest)
            · exact hfrest e h
          exact ih _ available assign unalloc hent2 hnone hfail2
        · by_cases heq : top.curIndex + 1 = top.allocations.length
          · have hstep : greedyLoop env (fuel + 1) (top :: rest) available assign unalloc =
                greedyLoop env fuel rest available assign
                  (unalloc ++ [{ top with curIndex := top.curIndex + 1 }]) := by
              simp only [greedyLoop, if_neg he, hsv, hmd, hga, hac, if_neg hcap, if_neg hlt,
                if_pos heq]
            rw [hstep]
            exact ih rest available assign _ hrest hnone hfrest
          · have hstep : greedyLoop env (fuel + 1) (top :: rest) available assign unalloc =
                greedyLoop env fuel
                  (insertOrdered rest { top with
                    curIndex := top.curIndex + 1,
                    delta := maxFloat32 })
                  available assign unalloc := by
              simp only [greedyLoop, if_neg he, hsv, hmd, hga, hac, if_neg hcap, if_neg hlt,
                if_neg heq]
            rw [hstep]
            have hent2 : ∀ e ∈ insertOrdered rest { top with
                curIndex := top.curIndex + 1,
                delta := maxFloat32 }, ∀ a ∈ e.allocations, 0 ≤ a.numReplicas := by
              intro e hee
              rcases mem_insertOrdered hee with h | h
              · rw [h]
                exact hent top (List.mem_cons_self top rest)
              · exact hrest e h
            have hfail2 : ∀ e ∈ insertOrdered rest { top with
                curIndex := top.curIndex + 1,
                delta := maxFloat32 },
                e.serverName = s → ∀ a ∈ e.allocations,
                ∀ server model acc, env.getServer s = some server →
                  env.getModel server.modelName = some model →
                  env.getAccelerator a.accelerator = some acc →
                  available acc.accType <
                    a.numReplicas * (model.numInstances a.accelerator * acc.multiplicity) := by
              intro e hee
              rcases mem_insertOrdered hee with h | h
              · rw [h]
                exact hfail top (List.mem_cons_self top rest)
              · exact hfrest e h
            exact ih _ available assign unalloc hent2 hnone hfail2

/-- C1: for every saturation policy, every accelerator type and every
environment whose capacities, multiplicities, per-replica accelerator counts
and candidate replica counts are nonnegative, a complete solve leaves a
nonnegative remaining count that never exceeds the initial capacity: the
units deducted by the main greedy pass and by the configured saturation
policy total at most capacity[t]. -/
theorem solveGreedy_capacity (env : Env) (policy : SaturationPolicy)
    (assign : String → Option Allocation) (t : String)
    (hcap : ∀ u, 0 ≤ env.capacities u)
    (hmult : ∀ p ∈ env.accelerators, 0 ≤ p.2.multiplicity)
    (haccn : ∀ p ∈ env.models, ∀ q ∈ p.2.perfData, 0 ≤ q.2.accCount)
    (hrep : ∀ p ∈ env.servers, ∀ a ∈ p.2.allAllocations, 0 ≤ a.numReplicas) :
    0 ≤ (solveGreedy env policy assign).1 t ∧
      (solveGreedy env policy assign).1 t ≤ env.capacities t := by
  have hm : EnvUnitsNonneg env := ⟨hmult, haccn⟩
  have hents : ∀ e ∈ ((buildEntries env.servers assign).2.mergeSort
      (fun a b => decide (orderFunc a b ≤ 0))), ∀ a ∈ e.allocations, 0 ≤ a.numReplicas :=
    fun e he => buildEntries_allocs env.servers assign hrep e (List.mem_mergeSort.mp he)
  obtain ⟨g1, _, _⟩ := greedyLoop_inv env hm
    (loopFuel ((buildEntries env.servers assign).2.mergeSort
      (fun a b => decide (orderFunc a b ≤ 0))))
    ((buildEntries env.servers assign).2.mergeSort
      (fun a b => decide (orderFunc a b ≤ 0)))
    env.capacities (buildEntries env.servers assign).1 [] hents
  cases policy with
  | priorityExhaustive =>
    exact ⟨(processUnallocatedServers_available env _ _ t).2 ((g1 t).2 (hcap t)),
      le_trans (processUnallocatedServers_available env _ _ t).1 (g1 t).1⟩
  | priorityRoundRobin =>
    exact ⟨(processGroupsOfUnallocatedServers_available env _ _ t).2 ((g1 t).2 (hcap t)),
      le_trans (processGroupsOfUnallocatedServers_available env _ _ t).1 (g1 t).1⟩
  | roundRobin =>
    exact ⟨(processUnallocatedServerGroup_available env _ _ t).2 ((g1 t).2 (hcap t)),
      le_trans (processUnallocatedServerGroup_available env _ _ t).1 (g1 t).1⟩
  | none =>
    exact ⟨(g1 t).2 (hcap t), (g1 t).1⟩

def c4Alloc : Allocation :=
  { accelerator := "g"
    numReplicas := 1
    batchSize := 4
    cost := 3
    value := 2
    servTime := 0
    waitTime := 0
    rho := 0
    maxArrvRatePerReplica := 0 }

def c4Perf : PerfData :=
  { accCount := 1
    maxBatchSize := 4
    atTokens := 0
    alpha := 0
    beta := 0 }

def c4Acc : Accelerator :=
  { name := "g"
    accType := "T"
    multiplicity := 1
    cost := 1 }

def c4Model : Model :=
  { name := "m"
    perfData := [("g", c4Perf)] }

def c4Server : Server :=
  { modelName := "m"
    serviceClassName := "c"
    load := none
    maxBatchSize := 4
    minNumReplicas := 1
    priority := 1
    allAllocations := [c4Alloc] }

def c4Entry : serverEntry :=
  { serverName := "s"
    priority := 1
    curIndex := 0
    allocations := [c4Alloc]
    delta := 0 }

def c4Env : Env :=
  { accelerators := [("g", c4Acc)]
    capacities := fun _ => 5
    models := [("m", c4Model)]
    serviceClasses := []
    servers := [("s", c4Server)] }

/-- C4: the round-robin grant guard compares only the units still available and
the candidate's replica count, never the replicas already granted, so a server
whose candidate requests a single replica keeps receiving one replica per pass
while units remain: with 5 units of its type available and a request for 1
replica at 1 unit per replica, the final allocation carries 5 replicas. -/
theorem roundRobin_overallocates :
    ((processUnallocatedServerGroup c4Env [c4Entry]
        (fun _ => 5, fun _ => none)).2 "s").map Allocation.numReplicas = some 5 := by
  decide

def c1Env : Env :=
  { accelerators := []
    capacities := fun _ => 7
    models := []
    serviceClasses := []
    servers := [] }

/-- Witness: the capacity invariant instantiated at a concrete environment. -/
theorem solveGreedy_capacity_witness :
    0 ≤ (solveGreedy c1Env SaturationPolicy.none (fun _ => none)).1 "t" ∧
      (solveGreedy c1Env SaturationPolicy.none (fun _ => none)).1 "t" ≤
        c1Env.capacities "t" := by
  have h := solveGreedy_capacity c1Env SaturationPolicy.none (fun _ => none) "t"
    (by intro u; simp [c1Env])
    (by intro p hp; simp [c1Env] at hp)
    (by intro p hp; simp [c1Env] at hp)
    (by intro p hp; simp [c1Env] at hp)
  exact h

/-- C9: a solve starts by clearing every registry server's assignment, so
under saturation policy None a server whose candidate list is empty, or whose
every candidate asks for more units of its accelerator type than the whole
capacity, ends the solve with no desired allocation: an allocation from a
previous solve never survives into the new solution. -/
theorem solveGreedy_fresh (env : Env) (assign : String → Option Allocation)
    (s : String) (sv : Server)
    (hmult : ∀ p ∈ env.accelerators, 0 ≤ p.2.multiplicity)
    (haccn : ∀ p ∈ env.models, ∀ q ∈ p.2.perfData, 0 ≤ q.2.accCount)
    (hrep : ∀ p ∈ env.servers, ∀ a ∈ p.2.allAllocations, 0 ≤ a.numReplicas)
    (hnd : (env.servers.map Prod.fst).Nodup)
    (hsv : (s, sv) ∈ env.servers)
    (hfail : sv.allAllocations = [] ∨
      ∀ a ∈ sv.allAllocations, ∀ server model acc,
        env.getServer s = some server →
        env.getModel server.modelName = some model →
        env.getAccelerator a.accelerator = some acc →
        env.capacities acc.accType <
          a.numReplicas * (model.numInstances a.accelerator * acc.multiplicity)) :
    (solveGreedy env SaturationPolicy.none assign).2 s = none := by
  have hm : EnvUnitsNonneg env := ⟨hmult, haccn⟩
  have hents : ∀ e ∈ ((buildEntries env.servers assign).2.mergeSort
      (fun a b => decide (orderFunc a b ≤ 0))), ∀ a ∈ e.allocations, 0 ≤ a.numReplicas :=
    fun e he => buildEntries_allocs env.servers assign hrep e (List.mem_mergeSort.mp he)
  have hnone : (buildEntries env.servers assign).1 s = none :=
    buildEntries_assign env.servers assign s (List.mem_map_of_mem Prod.fst hsv)
  have hfailE : ∀ e ∈ ((buildEntries env.servers assign).2.mergeSort
      (fun a b => decide (orderFunc a b ≤ 0))), e.serverName = s →
      ∀ a ∈ e.allocations, ∀ server model acc, env.getServer s = some server →
        env.getModel server.modelName = some model →
        env.getAccelerator a.accelerator = some acc →
        env.capacities acc.accType <
          a.numReplicas * (model.numInstances a.accelerator * acc.multiplicity) := by
    intro e hee hes a ha server model acc h1 h2 h3
    obtain ⟨⟨p1, p2⟩, hp, hmk⟩ :=
      buildEntries_origin env.servers assign e (List.mem_mergeSort.mp hee)
    rw [hmk, mkEntry_serverName] at hes
    subst hes
    have hv : sv = p2 := nodup_fst_eq hnd hsv hp
    rw [hmk, mkEntry_allocations] at ha
    have haa : a ∈ sv.allAllocations := by
      rw [hv]
      exact List.mem_mergeSort.mp ha
    rcases hfail with hemp | hf
    · rw [hemp] at haa
      exact absurd haa (List.not_mem_nil a)
    · exact hf a haa server model acc h1 h2 h3
  exact greedyLoop_none env hm s
    (loopFuel ((buildEntries env.servers assign).2.mergeSort
      (fun a b => decide (orderFunc a b ≤ 0))))
    ((buildEntries env.servers assign).2.mergeSort
      (fun a b => decide (orderFunc a b ≤ 0)))
    env.capacities (buildEntries env.servers assign).1 [] hents hnone hfailE

def c9Alloc : Allocation :=
  { accelerator := "g"
    numReplicas := 3
    batchSize := 4
    cost := 1
    value := 1
    servTime := 0
    waitTime := 0
    rho := 0
    maxArrvRatePerReplica := 0 }

def c9Server : Server :=
  { modelName := "m"
    serviceClassName := "c"
    load := none
    maxBatchSize := 4
    minNumReplicas := 1
    priority := 1
    allAllocations := [] }

def c9Env : Env :=
  { accelerators := []
    capacities := fun _ => 0
    models := []
    serviceClasses := []
    servers := [("s", c9Server)] }

/-- Witness: a server entering the solve with a stale desired allocation and
an empty candidate list ends a None-policy solve unassigned. -/
theorem solveGreedy_fresh_witness :
    (solveGreedy c9Env SaturationPolicy.none (fun _ => some c9Alloc)).2 "s" = none := by
  have h := solveGreedy_fresh c9Env (fun _ => some c9Alloc) "s" c9Server
    (by intro p hp; simp [c9Env] at hp)
    (by intro p hp; simp [c9Env] at hp)
    (by intro p hp a ha; simp [c9Env] at hp; rw [hp] at ha; simp [c9Server] at ha)
    (by simp [c9Env])
    (by simp [c9Env])
    (Or.inl rfl)
  exact h

def c5Alloc : Allocation :=
  { accelerator := "g"
    numReplicas := 2
    batchSize := 4
    cost := 2
    value := 2
    servTime := 0
    waitTime := 0
    rho := 0
    maxArrvRatePerReplica := 0 }

def c5Perf : PerfData :=
  { accCount := 1
    maxBatchSize := 4
    atTokens := 0
    alpha := 0
    beta := 0 }

def c5Acc : Accelerator :=
  { name := "g"
    accType := "T"
    multiplicity := 1
    cost := 1 }

def c5Model : Model :=
  { name := "m"
    perfData := [("g", c5Perf)] }

def c5Server : Server :=
  { modelName := "m"
    serviceClassName := "c"
    load := none
    maxBatchSize := 4
    minNumReplicas := 2
    priority := 1
    allAllocations := [c5Alloc] }

def c5Env : Env :=
  { accelerators := [("g", c5Acc)]
    capacities := fun _ => 1
    models := [("m", c5Model)]
    serviceClasses := []
    servers := [("s", c5Server)] }

/-- C5 counterexample: the PriorityExhaustive saturation pass scales a
candidate's replica count down to what fits, without regard to the server's
configured minimum: a server whose single candidate respects its minimum of 2
replicas ends a complete solve with a desired allocation of 1 replica when
only one unit of its accelerator type is available. -/
theorem solveGreedy_below_min :
    ((solveGreedy c5Env SaturationPolicy.priorityExhaustive
        (fun _ => none)).2 "s").map Allocation.numReplicas = some 1 ∧
      c5Server.minNumReplicas = 2 := by
  constructor
  · simp only [solveGreedy, buildEntries, buildStep, mkEntry, c5Env, c5Server,
      List.foldl_cons, List.foldl_nil, List.cons_ne_nil, if_neg, ite_false,
      reduceCtorEq, Bool.false_eq_true, not_false_eq_true, List.length_cons,
      List.length_nil, List.mergeSort_singleton, List.nil_append]
    decide
  · decide

/-- C5 amended: under saturation policy None, when every candidate of every
registry server carries at least its server's configured minimum replica
count (as CreateAllocation's final max with minNumReplicas guarantees), every
server that ends a solve with a desired allocation meets its minimum: the
greedy pass assigns candidates unmodified.  The saturation policies scale
replica counts down to what fits and may end below the minimum. -/
theorem solveGreedy_minReplicas (env : Env) (assign : String → Option Allocation)
    (s : String) (sv : Server) (a : Allocation)
    (hmult : ∀ p ∈ env.accelerators, 0 ≤ p.2.multiplicity)
    (haccn : ∀ p ∈ env.models, ∀ q ∈ p.2.perfData, 0 ≤ q.2.accCount)
    (hrep : ∀ p ∈ env.servers, ∀ b ∈ p.2.allAllocations, 0 ≤ b.numReplicas)
    (hnd : (env.servers.map Prod.fst).Nodup)
    (hsv : (s, sv) ∈ env.servers)
    (hmin : ∀ p ∈ env.servers, ∀ b ∈ p.2.allAllocations,
      p.2.minNumReplicas ≤ b.numReplicas)
    (hres : (solveGreedy env SaturationPolicy.none assign).2 s = some a) :
    sv.minNumReplicas ≤ a.numReplicas := by
  have hm : EnvUnitsNonneg env := ⟨hmult, haccn⟩
  have hents : ∀ e ∈ ((buildEntries env.servers assign).2.mergeSort
      (fun a b => decide (orderFunc a b ≤ 0))), ∀ b ∈ e.allocations, 0 ≤ b.numReplicas :=
    fun e he => buildEntries_allocs env.servers assign hrep e (List.mem_mergeSort.mp he)
  obtain ⟨_, _, g3⟩ := greedyLoop_inv env hm
    (loopFuel ((buildEntries env.servers assign).2.mergeSort
      (fun a b => decide (orderFunc a b ≤ 0))))
    ((buildEntries env.servers assign).2.mergeSort
      (fun a b => decide (orderFunc a b ≤ 0)))
    env.capacities (buildEntries env.servers assign).1 [] hents
  have hres2 : (greedyLoop env
      (loopFuel ((buildEntries env.servers assign).2.mergeSort
        (fun a b => decide (orderFunc a b ≤ 0))))
      ((buildEntries env.servers assign).2.mergeSort
        (fun a b => decide (orderFunc a b ≤ 0)))
      env.capacities (buildEntries env.servers assign).1 []).2.1 s = some a := hres
  rcases g3 s a hres2 with h | ⟨e, hee, hes, ha⟩
  · rw [buildEntries_assign env.servers assign s (List.mem_map_of_mem Prod.fst hsv)] at h
    exact Option.noConfusion h
  · obtain ⟨⟨p1, p2⟩, hp, hmk⟩ :=
      buildEntries_origin env.servers assign e (List.mem_mergeSort.mp hee)
    rw [hmk, mkEntry_serverName] at hes
    subst hes
    have hv : sv = p2 := nodup_fst_eq hnd hsv hp
    rw [hmk, mkEntry_allocations] at ha
    have haa : a ∈ sv.allAllocations := by
      rw [hv]
      exact List.mem_mergeSort.mp ha
    exact hmin _ hsv a haa

def c5wEnv : Env :=
  { accelerators := [("g", c5Acc)]
    capacities := fun _ => 5
    models := [("m", c5Model)]
    serviceClasses := []
    servers := [("s", c5Server)] }

/-- Witness: with ample capacity the greedy pass assigns the candidate
unchanged and the minimum of 2 replicas is met. -/
theorem solveGreedy_minReplicas_witness :
    (solveGreedy c5wEnv SaturationPolicy.none (fun _ => none)).2 "s" = some c5Alloc ∧
      c5Server.minNumReplicas ≤ c5Alloc.numReplicas := by
  have hres : (solveGreedy c5wEnv SaturationPolicy.none (fun _ => none)).2 "s" =
      some c5Alloc := by
    simp only [solveGreedy, buildEntries, buildStep, mkEntry, c5wEnv, c5Server,
      List.foldl_cons, List.foldl_nil, List.cons_ne_nil, if_neg, ite_false,
      reduceCtorEq, Bool.false_eq_true, not_false_eq_true, List.length_cons,
      List.length_nil, List.mergeSort_singleton, List.nil_append]
    decide
  have h1 : ∀ p ∈ c5wEnv.accelerators, 0 ≤ p.2.multiplicity := by
    intro p hp
    simp [c5wEnv] at hp
    rw [hp]
    decide
  have h2 : ∀ p ∈ c5wEnv.models, ∀ q ∈ p.2.perfData, 0 ≤ q.2.accCount := by
    intro p hp q hq
    simp [c5wEnv] at hp
    rw [hp] at hq
    simp [c5Model] at hq
    rw [hq]
    decide
  have h3 : ∀ p ∈ c5wEnv.servers, ∀ b ∈ p.2.allAllocations, 0 ≤ b.numReplicas := by
    intro p hp b hb
    simp [c5wEnv] at hp
    rw [hp] at hb
    simp [c5Server] at hb
    rw [hb]
    decide
  have h4 : ∀ p ∈ c5wEnv.servers, ∀ b ∈ p.2.allAllocations,
      p.2.minNumReplicas ≤ b.numReplicas := by
    intro p hp b hb
    simp [c5wEnv] at hp
    rw [hp] at hb
    simp [c5Server] at hb
    rw [hp, hb]
    decide
  refine ⟨hres, ?_⟩
  exact solveGreedy_minReplicas c5wEnv (fun _ => none) "s" c5Server c5Alloc
    h1 h2 h3 (by simp [c5wEnv]) (by simp [c5wEnv]) h4 hres

end Optimizer
